import Mathlib

set_option maxHeartbeats 1600000
set_option maxRecDepth 4000

/-!
Shallow embedding of `new_parser.py` (generic XML to SQL query converter).

The embedding models the core engine of the source file:
* the configuration lookup dictionaries built by `Parser.read_config`,
* the record walk `Parser.parse_file` / `Parser.parse_node`,
* the in-memory table registry `TableList` and the `Table` entity with its
  identifier inheritance, per-parent counters and `create_insert` rendering.

Python dictionaries (insertion ordered) and `OrderedDict`s are modelled as
association lists with update-in-place-or-append semantics (`alistSet`).
Python runtime exceptions (`KeyError`, `ValueError`, `IndexError`,
`AttributeError`, `NameError`) are modelled with `Except Err`; an uncaught
exception in the source aborts the run, which corresponds to the
short-circuiting of `Except`.

XML element trees are modelled by the mutual inductives `XNode`/`XForest`
(a forest instead of a nested `List` keeps all recursions structural, so
every definition evaluates by `rfl`/`decide`).  The configuration document
is also an `XNode` tree.

Two fields of the emitted-statement record (`Stmt.rid`, `Stmt.parentRid`)
and of `Table` are pure instrumentation: they model Python object identity
(`rid`) and the identity of the table object found as parent during
`Table.__init__` (`parentRid`).  They influence no behaviour; the text the
source writes is the `sql` field.
-/

deriving instance DecidableEq for Except

namespace NewParser

/-- Python runtime errors raised (uncaught) by the source code. -/
inductive Err : Type where
  | keyError
  | valueError
  | indexError
  | attributeError
  | nameError
deriving DecidableEq, Repr

/-- A Python value as stored in a column of a `Table`: a string, an integer
(the file number default -1 and counter values), or Python `None`. -/
inductive PyVal : Type where
  | str (s : String)
  | int (n : Int)
  | none
deriving DecidableEq, Repr

/-- Python f-string conversion of a value (`f'\x7bv\x7d'`). -/
def pyStr : PyVal → String
  | .str s => s
  | .int n => toString n
  | .none => ("None")

/-- Python f-string conversion of an optional element text
(`None` prints as the string `None`). -/
def pyText : Option String → String
  | some s => s
  | Option.none => ("None")

/-- First-match lookup in an association list (Python `d[k]` / `k in d`). -/
def alistGet? {β : Type} : List (String × β) → String → Option β
  | [], _ => Option.none
  | (k₁, v₁) :: t, k => if k₁ = k then some v₁ else alistGet? t k

/-- Lookup with default (Python `d.get(k, dflt)` and `defaultdict`). -/
def alistGetD {β : Type} (l : List (String × β)) (k : String) (d : β) : β :=
  (alistGet? l k).getD d

/-- Python `d[k] = v` on an insertion-ordered dictionary: overwrite in place
if the key is present, else append at the end. -/
def alistSet {β : Type} : List (String × β) → String → β → List (String × β)
  | [], k, v => [(k, v)]
  | (k₁, v₁) :: t, k, v => if k₁ = k then (k, v) :: t else (k₁, v₁) :: alistSet t k v

/-- The keys of an association list, in order. -/
def alistKeys {β : Type} (l : List (String × β)) : List String := l.map Prod.fst

/-- If `sep` is a leading chunk of `l`, return the remainder. -/
def takeSep : List Char → List Char → Option (List Char)
  | [], l => some l
  | _ :: _, [] => Option.none
  | s :: ss, c :: cs => if c = s then takeSep ss cs else Option.none

/-- Prepend a character to the first chunk of a split result. -/
def consHead (c : Char) : List (List Char) → List (List Char)
  | [] => [[c]]
  | h :: t => (c :: h) :: t

/-- Python `str.split(sep)` on character lists, fuelled so that the
recursion is structural (the fuel is the length of the list, which is
always enough for a non-empty separator; every call site uses a fixed
non-empty separator).  Left-to-right, non-overlapping matches, empty
chunks between adjacent separators, leading/trailing chunks included. -/
def splitCharsAux (sep : List Char) : Nat → List Char → List (List Char)
  | _, [] => [[]]
  | 0, l => [l]
  | Nat.succ k, c :: cs =>
    match takeSep sep (c :: cs) with
    | some rest => [] :: splitCharsAux sep k rest
    | Option.none => consHead c (splitCharsAux sep k cs)

/-- Python `s.split(sep)` (no maxsplit), for a non-empty separator. -/
def pySplit (s sep : String) : List String :=
  (splitCharsAux sep.data s.data.length s.data).map String.mk

/-- Join a list of strings with a separator (Python `sep.join(parts)`). -/
def joinSep (sep : String) : List String → String
  | [] => ("")
  | a :: rest => rest.foldl (fun acc x => acc ++ sep ++ x) a

/-- Python `s.split(sep, 1)`: at most one split, so at most two parts. -/
def pySplitOnce (s sep : String) : List String :=
  match pySplit s sep with
  | [] => []
  | a :: rest => if rest.isEmpty then [a] else [a, joinSep sep rest]

/-- `read_config` truncation of a mapping value:
`':'.join(attrib_value_all.split(':')[:2])`. -/
def colonTrunc2 (s : String) : String :=
  joinSep (":") ((pySplit s (":")).take 2)

/-- Namespace stripping in `parse_node`:
`node.tag.split("\x7d", 1)[1]` when the tag contains a closing brace. -/
def stripNs (t : String) : String :=
  match pySplit t ("\x7d") with
  | _ :: b :: rest => joinSep ("\x7d") (b :: rest)
  | _ => t

/-- Python `str.strip()` (whitespace strip), used for the blank-text check
of `read_config`. -/
def pyTrim (s : String) : String :=
  String.mk (((s.data.dropWhile Char.isWhitespace).reverse.dropWhile Char.isWhitespace).reverse)

/-- Python `s.strip('/')` as used for the `attrib_defaults` keys. -/
def stripSlashes (s : String) : String :=
  String.mk (((s.data.dropWhile (fun c => c = '/')).reverse.dropWhile (fun c => c = '/')).reverse)

/-- Python `str.replace(old, new)` for a single-character pattern
(all three patterns used by `db_string` are single characters):
left-to-right, non-overlapping, scanning continues after the replacement. -/
def replaceChar (old : Char) (new : List Char) : List Char → List Char
  | [] => []
  | c :: cs => if c = old then new ++ replaceChar old new cs else c :: replaceChar old new cs

/-- The escaping chain of `Table.db_string`:
`.replace("'", "''").replace('\\', '\\\\').replace('\n', '')`. -/
def dbEscape (l : List Char) : List Char :=
  replaceChar ('\n') [] (replaceChar ('\\') ['\\', '\\'] (replaceChar ('\'') ['\'', '\''] l))

/-- `Table.table_quote` (a double quote). -/
def table_quote : String := String.mk ['"']

/-- `Table.value_quote` (a single quote). -/
def value_quote : String := String.mk ['\'']

/-- `Table.db_string`: `None` becomes the four-character string `NULL`,
anything else is converted with `str(...)` and escaped. -/
def db_string : PyVal → String
  | .none => ("NULL")
  | .str s => String.mk (dbEscape s.data)
  | .int n => String.mk (dbEscape (toString n).data)

/-- The rendering of one non-identifier column value inside
`Table.create_insert`: `f'\x7bvalue_quote\x7d\x7bdb_string(v)\x7d\x7bvalue_quote\x7d'`.
Note that the quotes are added unconditionally, also around the `NULL`
produced by `db_string` for `None`. -/
def colValueSql (v : PyVal) : String :=
  value_quote ++ db_string v ++ value_quote

/-- The `Table` entity of the source.  `columns`, `identifiers` are
`OrderedDict`s, `counters` a `defaultdict(int)`.  `rid`/`parentRid` are
instrumentation only (Python object identity of this table and of the
parent table object whose identifiers were inherited). -/
structure Table : Type where
  rid : Nat
  parentRid : Option Nat
  name : String
  parent_name : Option String
  columns : List (String × PyVal)
  identifiers : List (String × PyVal)
  counters : List (String × Int)
deriving DecidableEq, Repr

/-- `Table.add_col`: `self.columns[col_name] = col_value`. -/
def Table.add_col (t : Table) (c : String) (v : PyVal) : Table :=
  { t with columns := alistSet t.columns c v }

/-- `Table.add_identifier`: `self.identifiers[col_name] = col_value`. -/
def Table.add_identifier (t : Table) (c : String) (v : PyVal) : Table :=
  { t with identifiers := alistSet t.identifiers c v }

/-- `Table.create_insert`: identifier columns first (values verbatim), then
data columns (values escaped and wrapped in single quotes). -/
def Table.create_insert (t : Table) : String :=
  let col_list := joinSep (",")
    ((t.identifiers.map (fun kv => table_quote ++ kv.1 ++ table_quote)) ++
     (t.columns.map (fun kv => table_quote ++ kv.1 ++ table_quote)))
  let val_list := joinSep (",")
    ((t.identifiers.map (fun kv => pyStr kv.2)) ++
     (t.columns.map (fun kv => colValueSql kv.2)))
  ("INSERT INTO ") ++ table_quote ++ t.name ++ table_quote ++ (" (") ++ col_list ++
    (") VALUES (") ++ val_list ++ (");")

/-- The compiled configuration and run parameters of the `Parser` object:
the six lookup dictionaries populated by `read_config`, the record and
identifier tags, and the file-number lookup sheet.  The source's optional
scoping tag (`root_tag`) is not modelled: no claim depends on the scoping
state machine, and the record walk only starts at record elements. -/
structure Parser : Type where
  table_dict : List (String × String) := []
  value_dict : List (String × String) := []
  ctr_dict : List (String × String) := []
  attrib_dict : List (String × String) := []
  attrib_defaults : List (String × List (String × String)) := []
  file_number_dict : List (String × String) := []
  rec_tag : String := ("")
  id_tag : String := ("")
  file_number_lookup : List (String × String) := []
deriving DecidableEq, Repr

/-- `Table.get_counter`: looks the child's path up in `ctr_dict`
(`KeyError` if absent), splits the entry `"table:ctr_id"` once
(`ValueError` if it does not unpack into two parts), increments the
named counter of this (parent) table and returns its new value. -/
def Table.get_counter (t : Table) (p : Parser) (name : String) :
    Except Err (String × Int × Table) :=
  match alistGet? p.ctr_dict (name ++ ("/")) with
  | Option.none => .error .keyError
  | some v =>
    match pySplitOnce v (":") with
    | [_t, ctr_id] =>
      let n := alistGetD t.counters ctr_id 0 + 1
      .ok (ctr_id, n, { t with counters := alistSet t.counters ctr_id n })
    | _ => .error .valueError

/-- The parent-scanning loop of `Table.__init__`: for every table in the
list whose name equals `parent_name` (no break in the source), inherit its
identifiers and take one counter value from it (mutating that parent in the
list).  IDs thread the new table `self` and the rewritten list; the third
component records the object identity of the last matched parent. -/
def initInherit (p : Parser) (table_path parent_name : String) :
    List Table → Table → Option Nat → Except Err (Table × List Table × Option Nat)
  | [], self, pr => .ok (self, [], pr)
  | t :: ts, self, pr =>
    if t.name = parent_name then
      let self1 := t.identifiers.foldl (fun s kv => s.add_identifier kv.1 kv.2) self
      match t.get_counter p table_path with
      | .error e => .error e
      | .ok (cid, n, t1) =>
        match initInherit p table_path parent_name ts (self1.add_identifier cid (.int n)) (some t.rid) with
        | .error e => .error e
        | .ok (s2, ts2, pr2) => .ok (s2, t1 :: ts2, pr2)
    else
      match initInherit p table_path parent_name ts self pr with
      | .error e => .error e
      | .ok (s2, ts2, pr2) => .ok (s2, t :: ts2, pr2)

/-- `Table.__init__`: fresh empty columns/identifiers/counters; when a
parent name is given, run the parent-scanning loop over the current table
list.  Returns the new table and the (possibly counter-bumped) list. -/
def Table.init (p : Parser) (rid : Nat) (name : String) (parent_name : Option String)
    (tlist : List Table) (table_path : String) : Except Err (Table × List Table) :=
  let base : Table :=
    { rid := rid, parentRid := Option.none, name := name, parent_name := parent_name,
      columns := [], identifiers := [], counters := [] }
  match parent_name with
  | Option.none => .ok (base, tlist)
  | some pn =>
    match initInherit p table_path pn tlist base Option.none with
    | .error e => .error e
    | .ok (s, tl, pr) => .ok ({ s with parentRid := pr }, tl)

/-- One emitted statement.  `sql` is the text the source appends to
`statement_list`; `table`, `rid` and `parentRid` are instrumentation
(the closed table's name, object identity, and the identity of the table
whose identifiers it inherited). -/
structure Stmt : Type where
  rid : Nat
  parentRid : Option Nat
  table : String
  sql : String
deriving DecidableEq, Repr

/-- The statement built from a table at close time. -/
def stmtOf (t : Table) : Stmt :=
  { rid := t.rid, parentRid := t.parentRid, table := t.name, sql := t.create_insert }

namespace TableList

/-- `TableList.add_table`: construct the table (scanning the current list
for parents) and append it. -/
def add_table (p : Parser) (tlist : List Table) (rid : Nat) (table_name : String)
    (parent_name : Option String) (table_path : String) : Except Err (List Table) :=
  match Table.init p rid table_name parent_name tlist table_path with
  | .error e => .error e
  | .ok (t, tl) => .ok (tl ++ [t])

/-- `TableList.add_col`: give the value to the first table with this name;
silently do nothing if there is none. -/
def add_col : List Table → String → String → PyVal → List Table
  | [], _, _, _ => []
  | t :: ts, nm, c, v =>
    if t.name = nm then t.add_col c v :: ts else t :: add_col ts nm c v

/-- `TableList.add_identifier`: same first-match discipline as `add_col`. -/
def add_identifier : List Table → String → String → PyVal → List Table
  | [], _, _, _ => []
  | t :: ts, nm, c, v =>
    if t.name = nm then t.add_identifier c v :: ts else t :: add_identifier ts nm c v

/-- `TableList.close_table`: find the first table with this name, append its
INSERT statement to the statement list and remove it; silently do nothing
if there is none. -/
def close_table : List Table → String → List Stmt → List Table × List Stmt
  | [], _, stmts => ([], stmts)
  | t :: ts, nm, stmts =>
    if t.name = nm then (ts, stmts ++ [stmtOf t])
    else
      let r := close_table ts nm stmts
      (t :: r.1, r.2)

end TableList

mutual
/-- An XML element: tag (namespace-qualified as lxml reports it),
attributes in document order, text, children.  Also used for the
configuration document handed to `read_config`. -/
inductive XNode : Type where
  | mk (tag : String) (attrib : List (String × String)) (text : Option String)
       (children : XForest)
/-- A list of sibling elements (kept as a mutual inductive rather than a
nested `List XNode` so all recursions over trees are structural). -/
inductive XForest : Type where
  | nil : XForest
  | cons : XNode → XForest → XForest
end

/-- Tag of an element. -/
def XNode.tag : XNode → String
  | .mk t _ _ _ => t

/-- Attributes of an element (document order). -/
def XNode.attrib : XNode → List (String × String)
  | .mk _ a _ _ => a

/-- Text of an element (`None` when absent). -/
def XNode.text : XNode → Option String
  | .mk _ _ tx _ => tx

/-- Children of an element. -/
def XNode.children : XNode → XForest
  | .mk _ _ _ c => c

/-- The children as a plain list. -/
def XForest.toList : XForest → List XNode
  | .nil => []
  | .cons h t => h :: XForest.toList t

/-- The children of `n` whose tag is `seg` (one step of an ElementPath
lookup). -/
def childrenWithTag (seg : String) (n : XNode) : List XNode :=
  (n.children.toList).filter (fun c => c.tag = seg)

/-- Spec-independent concat-map helper. -/
def concatMap {α β : Type} (f : α → List β) : List α → List β
  | [] => []
  | a :: l => f a ++ concatMap f l

/-- All matches of lxml `elem.iterfind(path)` for a plain child path
`a/b/c`: at each level take every matching child, in document order. -/
def etFindAll (n : XNode) (pathExpr : String) : List XNode :=
  (pySplit pathExpr ("/")).foldl (fun acc seg => concatMap (childrenWithTag seg) acc) [n]

/-- lxml `elem.find(path)`: the first match in document order. -/
def etFind (n : XNode) (pathExpr : String) : Option XNode :=
  (etFindAll n pathExpr).head?

/-- Mutable state threaded through the record walk: the `TableList`
contents, the `statement_list`, and the next fresh object identity. -/
structure WalkState : Type where
  tlist : List Table
  stmts : List Stmt
  nextRid : Nat
deriving DecidableEq, Repr

/-- `parse_node`, table-opening step (source lines 269-276): if
`table_dict` has `newpath + "/"`, open a new table under `last_opened` and
report `(new_table, table_name)`. -/
def nodeOpen (p : Parser) (newpath last_opened : String) (st : WalkState) :
    Except Err (Bool × String × WalkState) :=
  match alistGet? p.table_dict (newpath ++ ("/")) with
  | some tn =>
    match TableList.add_table p st.tlist st.nextRid tn (some last_opened) newpath with
    | .error e => .error e
    | .ok tl => .ok (true, tn, { st with tlist := tl, nextRid := st.nextRid + 1 })
  | Option.none => .ok (false, last_opened, st)

/-- `parse_node`, file-number step (source lines 278-287): the source looks
`newpath` itself up in `file_number_dict` (whose keys end in
`/file_number`, so it essentially never fires), and when it does fire it
evaluates `file_number_name.split(":", 1)[1]` (IndexError when the entry
has no colon) and then the name `file_number`, which is not in scope in
`parse_node` (NameError).  The source's own comments flag this branch. -/
def nodeFileNumber (p : Parser) (newpath : String) (st : WalkState) :
    Except Err WalkState :=
  match alistGet? p.file_number_dict newpath with
  | Option.none => .ok st
  | some v =>
    match pySplitOnce v (":") with
    | [_, _] => .error .nameError
    | _ => .error .indexError

/-- The attribute loop shared by `parse_file` (record level, lines 190-197)
and `parse_node` (lines 289-297): for each present attribute whose path is
mapped, unpack `"table:column"` (ValueError if fewer than two parts), write
the column and record the attribute as seen.  The unpacking rebinds the
local `table_name`, which is why the loop returns the final `tbl`. -/
def attribFold (p : Parser) (basePath : String) :
    List (String × String) → String → List String → WalkState →
    Except Err (String × List String × WalkState)
  | [], tbl, seen, st => .ok (tbl, seen, st)
  | (an, av) :: rest, tbl, seen, st =>
    match alistGet? p.attrib_dict (basePath ++ ("/") ++ an) with
    | Option.none => attribFold p basePath rest tbl seen st
    | some v =>
      match (pySplit v (":")).take 2 with
      | [tn, cn] =>
        attribFold p basePath rest tn (seen ++ [an])
          { st with tlist := TableList.add_col st.tlist tn cn (.str av) }
      | _ => .error .valueError

/-- The default-attribute loop shared by `parse_file` (lines 199-203) and
`parse_node` (lines 299-304): for each configured default whose attribute
was not seen, unpack `"table:column:default"` (ValueError if not three
parts) and write the default.  The unpacking again rebinds `table_name`. -/
def defaultsFold (p : Parser) :
    List (String × String) → List String → String → WalkState →
    Except Err (String × WalkState)
  | [], _, tbl, st => .ok (tbl, st)
  | (an, full) :: rest, seen, tbl, st =>
    if seen.contains an then defaultsFold p rest seen tbl st
    else
      match (pySplit full (":")).take 3 with
      | [tn, cn, dv] =>
        defaultsFold p rest seen tn
          { st with tlist := TableList.add_col st.tlist tn cn (.str dv) }
      | _ => .error .valueError

/-- `parse_node`, value step (lines 306-313): if the value path is mapped
and the node has text, split the entry once (`[1]` raises IndexError when
there is no colon) and write the text as a column. -/
def nodeValue (p : Parser) (valuepath : String) (text : Option String) (st : WalkState) :
    Except Err WalkState :=
  match alistGet? p.value_dict valuepath with
  | Option.none => .ok st
  | some v =>
    match text with
    | Option.none => .ok st
    | some tx =>
      match pySplitOnce v (":") with
      | [tn, cn] => .ok { st with tlist := TableList.add_col st.tlist tn cn (.str tx) }
      | _ => .error .indexError

/-- `parse_file`, record-level value step (lines 205-214): the branch reads
`node.text`, but no `node` is in scope in `parse_file`, so reaching it
raises NameError (flagged by the source's own comment). -/
def recValue (p : Parser) (valuepath : String) (st : WalkState) : Except Err WalkState :=
  match alistGet? p.value_dict valuepath with
  | Option.none => .ok st
  | some _ => .error .nameError

/-- `parse_file`, record-level file-number step (lines 179-185):
`file_number_dict.get(path + "/file_number", False)`, skipped when falsy
(absent key or empty string), else split once (`[1]` raises IndexError when
there is no colon) and write the run's file number as a column. -/
def recFileNumber (p : Parser) (fnPath : String) (fileNumber : PyVal) (st : WalkState) :
    Except Err WalkState :=
  match alistGet? p.file_number_dict fnPath with
  | Option.none => .ok st
  | some v =>
    if v = "" then .ok st
    else
      match pySplitOnce v (":") with
      | [tn, cn] => .ok { st with tlist := TableList.add_col st.tlist tn cn fileNumber }
      | _ => .error .indexError

mutual
/-- `Parser.parse_node` (source lines 252-322): strip the namespace, extend
the path, possibly open a table, run the file-number / attribute / default
/ value steps, recurse into the children with the (possibly rebound)
`table_name`, and close the table this node opened. -/
def parse_node (p : Parser) (node : XNode) (path last_opened : String) (st : WalkState) :
    Except Err WalkState :=
  match node with
  | .mk tagRaw attribs text children =>
    let tag := stripNs tagRaw
    let newpath := path ++ ("/") ++ tag
    match nodeOpen p newpath last_opened st with
    | .error e => .error e
    | .ok (new_table, tbl0, st1) =>
      match nodeFileNumber p newpath st1 with
      | .error e => .error e
      | .ok st2 =>
        match attribFold p newpath attribs tbl0 [] st2 with
        | .error e => .error e
        | .ok (tbl1, seen, st3) =>
          match defaultsFold p (alistGetD p.attrib_defaults newpath []) seen tbl1 st3 with
          | .error e => .error e
          | .ok (tbl2, st4) =>
            match nodeValue p (newpath ++ ("/")) text st4 with
            | .error e => .error e
            | .ok st5 =>
              match parse_children p children newpath tbl2 st5 with
              | .error e => .error e
              | .ok st6 =>
                if new_table then
                  let r := TableList.close_table st6.tlist tbl2 st6.stmts
                  .ok { st6 with tlist := r.1, stmts := r.2 }
                else .ok st6

/-- The child loop of `parse_node` / the record loop body: process the
children in order with the same path and `last_opened`. -/
def parse_children (p : Parser) (cs : XForest) (path last_opened : String) (st : WalkState) :
    Except Err WalkState :=
  match cs with
  | .nil => .ok st
  | .cons c rest =>
    match parse_node p c path last_opened st with
    | .error e => .error e
    | .ok st1 => parse_children p rest path last_opened st1
end

/-- Identifier extraction of `parse_file` (source lines 166-177): when the
identifier tag differs from the record tag, a single `elem.find` of the
identifier sub-path; if it is absent, Python raises AttributeError on
`id_node.text` (uncaught).  The value is `f"'\x7btext\x7d'"`. -/
def getIdValue (p : Parser) (elem : XNode) : Except Err String :=
  if p.id_tag ≠ p.rec_tag then
    match etFind elem p.id_tag with
    | Option.none => .error .attributeError
    | some idNode => .ok (value_quote ++ pyText idNode.text ++ value_quote)
  else .ok (value_quote ++ pyText elem.text ++ value_quote)

/-- The per-record body of `Parser.parse_file` (source lines 146-229): make
a fresh `TableList`, open the core table (KeyError when the record path is
not in `table_dict`), set the primary identifier under the column name
`id`, then the record-level file-number / attribute / default / value
steps, the recursive walk over the children, and the close of the core
table.  Returns the final `statement_list` (written out reversed). -/
def parseRecord (p : Parser) (fileNumber : PyVal) (elem : XNode) : Except Err (List Stmt) :=
  let path := p.rec_tag
  let table_path := path ++ ("/")
  let fnPath := path ++ ("/file_number")
  let valuepath := path ++ ("/")
  match alistGet? p.table_dict table_path with
  | Option.none => .error .keyError
  | some core_table_name =>
    match TableList.add_table p [] 0 core_table_name Option.none path with
    | .error e => .error e
    | .ok tl0 =>
      match getIdValue p elem with
      | .error e => .error e
      | .ok id_value =>
        let tl1 := TableList.add_identifier tl0 core_table_name ("id") (.str id_value)
        let st0 : WalkState := { tlist := tl1, stmts := [], nextRid := 1 }
        match recFileNumber p fnPath fileNumber st0 with
        | .error e => .error e
        | .ok st1 =>
          match attribFold p path elem.attrib core_table_name [] st1 with
          | .error e => .error e
          | .ok (_, seen, st2) =>
            match defaultsFold p (alistGetD p.attrib_defaults path []) seen core_table_name st2 with
            | .error e => .error e
            | .ok (_, st3) =>
              match recValue p valuepath st3 with
              | .error e => .error e
              | .ok st4 =>
                match parse_children p elem.children path core_table_name st4 with
                | .error e => .error e
                | .ok st5 =>
                  let r := TableList.close_table st5.tlist core_table_name st5.stmts
                  .ok r.2

mutual
/-- The record elements a tag-filtered `iterparse` delivers end events for,
in end-event order (post-order).  Models the `root_tag is None` reader of
`parse_file`; the memory management (`elem.clear()`) is not modelled. -/
def collectRecords (tag : String) (n : XNode) : List XNode :=
  match n with
  | .mk t _ _ ch => collectRecordsF tag ch ++ (if t = tag then [n] else [])
/-- Forest version of `collectRecords`. -/
def collectRecordsF (tag : String) (f : XForest) : List XNode :=
  match f with
  | .nil => []
  | .cons c rest => collectRecords tag c ++ collectRecordsF tag rest
end

/-- The output chunk written for one record (lines 223-229): the statements
in reverse order, each followed by a newline. -/
def recordChunk (stmts : List Stmt) : String :=
  joinSep ("") ((stmts.reverse).map (fun s => s.sql ++ ("\n")))

/-- `file_number = self.file_number_lookup.get(filepath.name, -1)`
(line 88): a string from the CSV sheet, or the integer -1. -/
def fileNumberOf (p : Parser) (fname : String) : PyVal :=
  match alistGet? p.file_number_lookup fname with
  | some s => .str s
  | Option.none => .int (-1)

/-- `filepath.with_suffix('.sql').name` (line 79): replace the final file
name extension with `.sql` (append when there is none; dotfile-style names
whose whole name is the suffix are not modelled exactly). -/
def withSuffixSql (fname : String) : String :=
  match pySplit fname (".") with
  | [x] => x ++ (".sql")
  | parts => joinSep (".") (parts.dropLast) ++ (".sql")

/-- Process the records of one file in order, concatenating their output
chunks. -/
def processRecords (p : Parser) (fileNumber : PyVal) : List XNode → Except Err String
  | [] => .ok ("")
  | r :: rest =>
    match parseRecord p fileNumber r with
    | .error e => .error e
    | .ok stmts =>
      match processRecords p fileNumber rest with
      | .error e => .error e
      | .ok tail => .ok (recordChunk stmts ++ tail)

/-- `Parser.parse_file` for one source document (scoping tag not
configured): one output file named after the source file, whose contents
are a `BEGIN;` line, the record chunks, and a `COMMIT;` line. -/
def parse_file (p : Parser) (fname : String) (root : XNode) : Except Err (String × String) :=
  let fileNumber := fileNumberOf p fname
  match processRecords p fileNumber (collectRecords p.rec_tag root) with
  | .error e => .error e
  | .ok body => .ok (withSuffixSql fname, ("BEGIN;\n") ++ body ++ ("COMMIT;\n"))

/-- `Parser.parse`: the files in sequence; an uncaught exception in one
file aborts the whole run (there is no try/except around `parse_file`). -/
def parse (p : Parser) : List (String × XNode) → Except Err (List (String × String))
  | [] => .ok []
  | (fn, root) :: rest =>
    match parse_file p fn root with
    | .error e => .error e
    | .ok out =>
      match parse p rest with
      | .error e => .error e
      | .ok outs => .ok (out :: outs)

/-- One attribute of one configuration node, as handled by
`read_config.update_lookup_tables` (source lines 343-363): values are
truncated to their first two colon-separated components; `table`, `ctr_id`
and `file_number` attributes go to their own dictionaries, everything else
to `attrib_dict`, with a three-component value additionally registering a
default. -/
def configAttribStep (ns newpath : String) (d : Parser) (kv : String × String) : Parser :=
  let attrib_value := colonTrunc2 kv.2
  let attrib_path := ns ++ newpath ++ kv.1
  if kv.1 = ("table") then
    { d with table_dict := alistSet d.table_dict (ns ++ newpath) attrib_value }
  else if kv.1 = ("ctr_id") then
    { d with ctr_dict := alistSet d.ctr_dict (ns ++ newpath) attrib_value }
  else if kv.1 = ("file_number") then
    { d with file_number_dict := alistSet d.file_number_dict attrib_path attrib_value }
  else
    let d1 := { d with attrib_dict := alistSet d.attrib_dict attrib_path attrib_value }
    if (pySplit kv.2 (":")).length = 3 then
      let key := stripSlashes (ns ++ newpath)
      let inner := alistSet (alistGetD d1.attrib_defaults key []) kv.1 kv.2
      { d1 with attrib_defaults := alistSet d1.attrib_defaults key inner }
    else d1

mutual
/-- `read_config.update_lookup_tables` (source lines 326-367): extend the
path with this node's tag, register a value mapping when the node has
non-blank text (the raw text is stored), handle each attribute, recurse
into the children.  The function is total: nothing is validated and no
error is ever raised at configuration-load time. -/
def update_lookup_tables (ns : String) (node : XNode) (path : String) (d : Parser) : Parser :=
  match node with
  | .mk tag attribs text children =>
    let newpath := path ++ tag ++ ("/")
    let d1 :=
      match text with
      | some tx =>
        if pyTrim tx ≠ "" then { d with value_dict := alistSet d.value_dict (ns ++ newpath) tx }
        else d
      | Option.none => d
    let d2 := attribs.foldl (configAttribStep ns newpath) d1
    update_lookup_children ns children newpath d2
/-- The child loop of `update_lookup_tables`. -/
def update_lookup_children (ns : String) (cs : XForest) (path : String) (d : Parser) : Parser :=
  match cs with
  | .nil => d
  | .cons c rest => update_lookup_children ns rest path (update_lookup_tables ns c path d)
end

/-! ### Cleanliness of a record walk

`TableList` resolves parents, column targets and closes purely by table
NAME.  The name-based resolution is only unambiguous when (a) a table name
is never opened while another open table already carries it, and (b) the
`table_name` local of `parse_node`, which the attribute/default unpacking
rebinds, is always rebound to the value it already has (i.e. every mapped
attribute/default at a node targets the table in effect there).  The
following syntactic predicates capture exactly these two conditions for a
record element under a given configuration. -/

/-- Condition (b) for the attributes of one node: every attribute present
whose path is mapped targets `tbl` (entries that would raise ValueError
anyway are ignored: the walk does not complete on them). -/
def attribsTarget (p : Parser) (newpath : String) (attribs : List (String × String))
    (tbl : String) : Bool :=
  attribs.all (fun kv =>
    match alistGet? p.attrib_dict (newpath ++ ("/") ++ kv.1) with
    | some v =>
      match (pySplit v (":")).take 2 with
      | [tn, _] => tn == tbl
      | _ => true
    | Option.none => true)

/-- Condition (b) for the defaults registered at one path: every default
entry targets `tbl`. -/
def defaultsTarget (p : Parser) (newpath : String) (tbl : String) : Bool :=
  (alistGetD p.attrib_defaults newpath []).all (fun kv =>
    match (pySplit kv.2 (":")).take 3 with
    | [tn, _, _] => tn == tbl
    | _ => true)

mutual
/-- Clean walk of one node: the table possibly opened here is not already
open, mapped attributes and defaults target the table in effect, and the
children are clean below it. -/
def cleanNode (p : Parser) (node : XNode) (path cur : String) (openNames : List String) : Bool :=
  match node with
  | .mk tagRaw attribs _ children =>
    let tag := stripNs tagRaw
    let newpath := path ++ ("/") ++ tag
    match alistGet? p.table_dict (newpath ++ ("/")) with
    | some tn =>
      (!(openNames.contains tn)) &&
      attribsTarget p newpath attribs tn &&
      defaultsTarget p newpath tn &&
      cleanForest p children newpath tn (openNames ++ [tn])
    | Option.none =>
      attribsTarget p newpath attribs cur &&
      defaultsTarget p newpath cur &&
      cleanForest p children newpath cur openNames
/-- Clean walk of a forest of siblings. -/
def cleanForest (p : Parser) (cs : XForest) (path cur : String) (openNames : List String) : Bool :=
  match cs with
  | .nil => true
  | .cons c rest => cleanNode p c path cur openNames && cleanForest p rest path cur openNames
end

/-- Clean record: the record path is mapped to a core table and the
children are clean with only the core table open. -/
def cleanRecord (p : Parser) (elem : XNode) : Bool :=
  match alistGet? p.table_dict (p.rec_tag ++ ("/")) with
  | some core => cleanForest p elem.children p.rec_tag core [core]
  | Option.none => false

/-! ### Statement-order property (from the specification)

The specification's ordering guarantee for the emitted stream: no
statement precedes the statement of the row whose identifiers it
inherited.  `parentRid` records exactly that row (the table object found
as parent at `Table.__init__` time). -/

/-- Decidable version: every statement with a parent has an earlier
statement (in the given emission order) carrying the parent's identity. -/
def parentBefore (l : List Stmt) : Bool :=
  (List.range l.length).all (fun j =>
    match l[j]? with
    | some s =>
      match s.parentRid with
      | some pr => (l.take j).any (fun t => t.rid == pr)
      | Option.none => true
    | Option.none => true)

/-- Character-wise escaping map, written from the specification's words:
every single quote doubled, every backslash doubled, every newline
removed, all other characters unchanged. -/
def escSpecChar (c : Char) : List Char :=
  if c = '\'' then ['\'', '\'']
  else if c = '\\' then ['\\', '\\']
  else if c = '\n' then []
  else [c]

/-! ### Skeleton and invariant of the walk -/

/-- The behaviour-relevant identity of a table entry: object identity,
parent object identity, and name. -/
def skelT (t : Table) : Nat × Option Nat × String := (t.rid, t.parentRid, t.name)

/-- The skeleton of a table list. -/
def skel (tl : List Table) : List (Nat × Option Nat × String) := tl.map skelT

/-- The names of the currently open tables, in order. -/
def names (tl : List Table) : List String := tl.map Table.name

/-- The object identities of the currently open tables. -/
def ridsT (tl : List Table) : List Nat := tl.map Table.rid

/-- Ordering invariant of the statement list relative to the still-open
tables: every emitted statement's parent row is either emitted later
(post-order) or still open. -/
def stmtParentLater (stmts : List Stmt) (tl : List Table) : Prop :=
  ∀ (i : Nat) (s : Stmt) (pr : Nat), stmts[i]? = some s → s.parentRid = some pr →
    (∃ (j : Nat) (t : Stmt), i < j ∧ stmts[j]? = some t ∧ t.rid = pr) ∨ pr ∈ ridsT tl

/-- The object identities of the emitted statements. -/
def ridsS (l : List Stmt) : List Nat := l.map Stmt.rid

/-- The full invariant of the walk state: open names distinct, all object
identities below the fresh counter, and the ordering invariant. -/
def walkInv (st : WalkState) : Prop :=
  (names st.tlist).Nodup ∧
  (∀ r ∈ ridsT st.tlist, r < st.nextRid) ∧
  (∀ r ∈ ridsS st.stmts, r < st.nextRid) ∧
  stmtParentLater st.stmts st.tlist

/-! ### Association-list lemmas -/

theorem alistGet?_set_self {β : Type} (l : List (String × β)) (k : String) (v : β) :
    alistGet? (alistSet l k v) k = some v := by
  induction l with
  | nil => simp [alistSet, alistGet?]
  | cons kv t ih =>
    obtain ⟨k1, v1⟩ := kv
    by_cases hk : k1 = k
    · simp [alistSet, hk, alistGet?]
    · simp [alistSet, hk, alistGet?, ih]

theorem alistSet_fresh {β : Type} (l : List (String × β)) (k : String) (v : β)
    (h : k ∉ alistKeys l) : alistSet l k v = l ++ [(k, v)] := by
  induction l with
  | nil => rfl
  | cons kv t ih =>
    obtain ⟨k1, v1⟩ := kv
    have hcons : alistKeys ((k1, v1) :: t) = k1 :: alistKeys t := rfl
    rw [hcons] at h
    have h1 : k1 ≠ k := fun e => h (e ▸ List.mem_cons_self k1 (alistKeys t))
    have h2 : k ∉ alistKeys t := fun e => h (List.mem_cons_of_mem _ e)
    simp [alistSet, h1, ih h2]

theorem foldl_add_identifier (kvs : List (String × PyVal)) (t : Table) :
    kvs.foldl (fun s kv => Table.add_identifier s kv.1 kv.2) t =
      { t with identifiers := kvs.foldl (fun m kv => alistSet m kv.1 kv.2) t.identifiers } := by
  induction kvs generalizing t with
  | nil => rfl
  | cons kv rest ih =>
    rw [List.foldl_cons, List.foldl_cons, ih (t.add_identifier kv.1 kv.2)]
    rfl

theorem foldl_add_identifier_counters (kvs : List (String × PyVal)) (t : Table) :
    (kvs.foldl (fun s kv => Table.add_identifier s kv.1 kv.2) t).counters = t.counters := by
  rw [foldl_add_identifier]

theorem foldl_alistSet_rebuild {β : Type} (kvs : List (String × β)) :
    ∀ acc : List (String × β), (alistKeys kvs).Nodup →
    (∀ k ∈ alistKeys kvs, k ∉ alistKeys acc) →
    kvs.foldl (fun m kv => alistSet m kv.1 kv.2) acc = acc ++ kvs := by
  induction kvs with
  | nil => intro acc _ _; simp
  | cons kv rest ih =>
    intro acc hnd hdisj
    obtain ⟨k1, v1⟩ := kv
    have hk1 : k1 ∉ alistKeys acc := hdisj k1 (by simp [alistKeys])
    have hnd' : (alistKeys rest).Nodup := by
      have : (k1 :: alistKeys rest).Nodup := by simpa [alistKeys] using hnd
      exact this.of_cons
    have hk1rest : k1 ∉ alistKeys rest := by
      have : (k1 :: alistKeys rest).Nodup := by simpa [alistKeys] using hnd
      exact (List.nodup_cons.mp this).1
    have hdisj' : ∀ k ∈ alistKeys rest, k ∉ alistKeys (acc ++ [(k1, v1)]) := by
      intro k hk
      have hne : k ≠ k1 := by intro e; exact hk1rest (e ▸ hk)
      have hacc : k ∉ alistKeys acc := hdisj k (by simp [alistKeys]; right; simpa [alistKeys] using hk)
      simp [alistKeys] at hacc ⊢
      exact ⟨hacc, hne⟩
    rw [List.foldl_cons]
    rw [show alistSet acc k1 v1 = acc ++ [(k1, v1)] from alistSet_fresh _ _ _ hk1]
    rw [ih (acc ++ [(k1, v1)]) hnd' hdisj']
    simp

/-! ### Skeleton lemmas -/

theorem skelT_add_col (t : Table) (c : String) (v : PyVal) :
    skelT (t.add_col c v) = skelT t := rfl

theorem skelT_add_identifier (t : Table) (c : String) (v : PyVal) :
    skelT (t.add_identifier c v) = skelT t := rfl

theorem skel_add_col (tl : List Table) (nm c : String) (v : PyVal) :
    skel (TableList.add_col tl nm c v) = skel tl := by
  induction tl with
  | nil => rfl
  | cons t ts ih =>
    by_cases h : t.name = nm
    · simp [TableList.add_col, h, skel, skelT, Table.add_col]
    · simp only [TableList.add_col, if_neg h, skel, List.map_cons]
      simp only [skel] at ih
      rw [ih]

theorem skel_add_identifier (tl : List Table) (nm c : String) (v : PyVal) :
    skel (TableList.add_identifier tl nm c v) = skel tl := by
  induction tl with
  | nil => rfl
  | cons t ts ih =>
    by_cases h : t.name = nm
    · simp [TableList.add_identifier, h, skel, skelT, Table.add_identifier]
    · simp only [TableList.add_identifier, if_neg h, skel, List.map_cons]
      simp only [skel] at ih
      rw [ih]

theorem names_skel (tl : List Table) : names tl = (skel tl).map (fun q => q.2.2) := by
  simp only [names, skel, List.map_map]
  exact List.map_congr_left (fun a _ => rfl)

theorem ridsT_skel (tl : List Table) : ridsT tl = (skel tl).map (fun q => q.1) := by
  simp only [ridsT, skel, List.map_map]
  exact List.map_congr_left (fun a _ => rfl)

theorem names_eq_of_skel {a b : List Table} (h : skel a = skel b) : names a = names b := by
  rw [names_skel, names_skel, h]

theorem ridsT_eq_of_skel {a b : List Table} (h : skel a = skel b) : ridsT a = ridsT b := by
  rw [ridsT_skel, ridsT_skel, h]

/-! ### `get_counter` and `initInherit` lemmas -/

theorem get_counter_ok {t : Table} {p : Parser} {nm cid : String} {n : Int} {t1 : Table}
    (h : t.get_counter p nm = .ok (cid, n, t1)) :
    n = alistGetD t.counters cid 0 + 1 ∧
    t1 = { t with counters := alistSet t.counters cid n } ∧
    ∃ v tb, alistGet? p.ctr_dict (nm ++ ("/")) = some v ∧ pySplitOnce v (":") = [tb, cid] := by
  unfold Table.get_counter at h
  split at h
  · exact absurd h (by simp)
  · rename_i v hv
    split at h
    · rename_i tb cid0 hs
      simp only [Except.ok.injEq, Prod.mk.injEq] at h
      obtain ⟨h1, h2, h3⟩ := h
      subst h1
      subst h2
      exact ⟨rfl, h3.symm, v, tb, hv, hs⟩
    · exact absurd h (by simp)

theorem get_counter_skelT {t : Table} {p : Parser} {nm cid : String} {n : Int} {t1 : Table}
    (h : t.get_counter p nm = .ok (cid, n, t1)) : skelT t1 = skelT t := by
  obtain ⟨-, h2, -⟩ := get_counter_ok h
  rw [h2]; rfl

theorem initInherit_spec (p : Parser) (path pn : String) :
    ∀ (tl : List Table) (acc : Table) (pr : Option Nat) (s : Table) (tl' : List Table)
      (pr' : Option Nat),
    initInherit p path pn tl acc pr = .ok (s, tl', pr') →
    skel tl' = skel tl ∧ s.counters = acc.counters ∧
    (pr' = pr ∨ ∃ t ∈ tl, pr' = some t.rid) ∧
    (pn ∈ names tl → ∃ t ∈ tl, pr' = some t.rid) := by
  intro tl
  induction tl with
  | nil =>
    intro acc pr s tl' pr' h
    simp only [initInherit, Except.ok.injEq, Prod.mk.injEq] at h
    obtain ⟨h1, h2, h3⟩ := h
    subst h2
    refine ⟨rfl, by rw [← h1], Or.inl h3.symm, ?_⟩
    intro hmem
    simp [names] at hmem
  | cons t ts ih =>
    intro acc pr s tl' pr' h
    simp only [initInherit] at h
    split at h
    · rename_i hn
      split at h
      · exact absurd h (by simp)
      · rename_i cid n t1 hgc
        split at h
        · exact absurd h (by simp)
        · rename_i s2 ts2 pr2 hrec
          simp only [Except.ok.injEq, Prod.mk.injEq] at h
          obtain ⟨h1, h2, h3⟩ := h
          subst h1 h3
          obtain ⟨hskel, hctr, hpr, _⟩ := ih _ _ _ _ _ hrec
          refine ⟨?_, ?_, ?_, ?_⟩
          · rw [← h2]
            have h4 : skelT t1 = skelT t := get_counter_skelT hgc
            simp only [skel, List.map_cons] at hskel ⊢
            rw [h4, hskel]
          · rw [hctr]
            have e1 : ∀ (x : Table) (c : String) (v : PyVal),
                (x.add_identifier c v).counters = x.counters := fun _ _ _ => rfl
            rw [e1, foldl_add_identifier_counters]
          · rcases hpr with h | ⟨u, hu1, hu2⟩
            · exact Or.inr ⟨t, by simp, h⟩
            · exact Or.inr ⟨u, by simp [hu1], hu2⟩
          · intro _
            rcases hpr with h | ⟨u, hu1, hu2⟩
            · exact ⟨t, by simp, h⟩
            · exact ⟨u, by simp [hu1], hu2⟩
    · rename_i hn
      split at h
      · exact absurd h (by simp)
      · rename_i s2 ts2 pr2 hrec
        simp only [Except.ok.injEq, Prod.mk.injEq] at h
        obtain ⟨h1, h2, h3⟩ := h
        subst h1 h3
        obtain ⟨hskel, hctr, hpr, hfound⟩ := ih _ _ _ _ _ hrec
        refine ⟨?_, hctr, ?_, ?_⟩
        · rw [← h2]
          simp only [skel, List.map_cons] at hskel ⊢
          rw [hskel]
        · rcases hpr with h | ⟨u, hu1, hu2⟩
          · exact Or.inl h
          · exact Or.inr ⟨u, by simp [hu1], hu2⟩
        · intro hmem
          have : pn ∈ names ts := by
            simp [names] at hmem
            rcases hmem with h | h
            · exact absurd h.symm hn
            · simpa [names] using h
          obtain ⟨u, hu1, hu2⟩ := hfound this
          exact ⟨u, by simp [hu1], hu2⟩

theorem initInherit_self (p : Parser) (path pn : String) :
    ∀ (tl : List Table) (acc : Table) (pr : Option Nat) (s : Table) (tl' : List Table)
      (pr' : Option Nat),
    initInherit p path pn tl acc pr = .ok (s, tl', pr') →
    s.rid = acc.rid ∧ s.name = acc.name := by
  intro tl
  induction tl with
  | nil =>
    intro acc pr s tl' pr' h
    simp only [initInherit, Except.ok.injEq, Prod.mk.injEq] at h
    rw [← h.1]
    exact ⟨rfl, rfl⟩
  | cons t ts ih =>
    intro acc pr s tl' pr' h
    simp only [initInherit] at h
    split at h
    · split at h
      · exact absurd h (by simp)
      · rename_i cid n t1 hgc
        split at h
        · exact absurd h (by simp)
        · rename_i s2 ts2 pr2 hrec
          simp only [Except.ok.injEq, Prod.mk.injEq] at h
          obtain ⟨h1, -, -⟩ := h
          subst h1
          obtain ⟨e1, e2⟩ := ih _ _ _ _ _ hrec
          constructor
          · rw [e1, show ∀ (x : Table) (c : String) (v : PyVal),
              (x.add_identifier c v).rid = x.rid from fun _ _ _ => rfl]
            rw [foldl_add_identifier]
          · rw [e2, show ∀ (x : Table) (c : String) (v : PyVal),
              (x.add_identifier c v).name = x.name from fun _ _ _ => rfl]
            rw [foldl_add_identifier]
    · split at h
      · exact absurd h (by simp)
      · rename_i s2 ts2 pr2 hrec
        simp only [Except.ok.injEq, Prod.mk.injEq] at h
        obtain ⟨h1, -, -⟩ := h
        subst h1
        exact ih _ _ _ _ _ hrec

/-- Specification of `add_table` on a list containing the parent name:
the skeleton is extended by exactly one entry, carrying the fresh object
identity, the identity of a matched parent, and the new table's name. -/
theorem add_table_spec {p : Parser} {tlist : List Table} {rid : Nat} {tn last tpath : String}
    {tl : List Table}
    (hlast : last ∈ names tlist)
    (h : TableList.add_table p tlist rid tn (some last) tpath = .ok tl) :
    ∃ r, r ∈ ridsT tlist ∧ skel tl = skel tlist ++ [(rid, some r, tn)] := by
  simp only [TableList.add_table, Table.init] at h
  split at h
  · exact absurd h (by simp)
  · rename_i t tl1 hmid
    split at hmid
    · exact absurd hmid (by simp)
    · rename_i s tl0 pr hinit
      simp only [Except.ok.injEq, Prod.mk.injEq] at hmid h
      obtain ⟨hm1, hm2⟩ := hmid
      obtain ⟨hskel0, -, -, hfound⟩ := initInherit_spec p tpath last _ _ _ _ _ _ hinit
      obtain ⟨u, hu1, hu2⟩ := hfound hlast
      obtain ⟨hrid, hname⟩ := initInherit_self p tpath last _ _ _ _ _ _ hinit
      refine ⟨u.rid, ?_, ?_⟩
      · exact List.mem_map_of_mem Table.rid hu1
      · rw [← h, ← hm1, ← hm2]
        simp only [skel, List.map_append, List.map_cons, List.map_nil]
        simp only [skel] at hskel0
        rw [hskel0]
        have he : skelT { s with parentRid := pr } = (rid, some u.rid, tn) := by
          simp [skelT, hrid, hname, hu2]
        rw [he]

/-- Decompose a table list whose skeleton ends in a known entry. -/
theorem skel_snoc_decomp :
    ∀ (tl : List Table) (sk : List (Nat × Option Nat × String)) (e : Nat × Option Nat × String),
    skel tl = sk ++ [e] →
    ∃ pre T, tl = pre ++ [T] ∧ skel pre = sk ∧ skelT T = e := by
  intro tl
  induction tl with
  | nil =>
    intro sk e h
    simp [skel] at h
  | cons t ts ih =>
    intro sk e h
    simp only [skel, List.map_cons] at h
    cases sk with
    | nil =>
      simp only [List.nil_append, List.cons.injEq] at h
      obtain ⟨h1, h2⟩ := h
      have : ts = [] := by
        cases ts with
        | nil => rfl
        | cons a b => simp at h2
      subst this
      exact ⟨[], t, by simp, by simp [skel], h1⟩
    | cons s sks =>
      simp only [List.cons_append, List.cons.injEq] at h
      obtain ⟨h1, h2⟩ := h
      obtain ⟨pre, T, e1, e2, e3⟩ := ih sks e (by simpa [skel] using h2)
      refine ⟨t :: pre, T, by simp [e1], ?_, e3⟩
      simp [skel, e2, h1]
      simpa [skel] using e2

/-! ### `close_table` and absent-name lemmas -/

theorem close_table_found (T : Table) (stmts : List Stmt) :
    ∀ (pre post : List Table), (∀ u ∈ pre, u.name ≠ T.name) →
    TableList.close_table (pre ++ T :: post) T.name stmts = (pre ++ post, stmts ++ [stmtOf T]) := by
  intro pre
  induction pre with
  | nil => intro post _; simp [TableList.close_table]
  | cons u us ih =>
    intro post h
    have hu : u.name ≠ T.name := h u (by simp)
    have ih' := ih post (fun w hw => h w (by simp [hw]))
    simp [TableList.close_table, hu, ih']

theorem close_table_absent (nm : String) (stmts : List Stmt) :
    ∀ tl : List Table, (∀ u ∈ tl, u.name ≠ nm) →
    TableList.close_table tl nm stmts = (tl, stmts) := by
  intro tl
  induction tl with
  | nil => intro _; rfl
  | cons u us ih =>
    intro h
    have hu : u.name ≠ nm := h u (by simp)
    have ih' := ih (fun w hw => h w (by simp [hw]))
    simp [TableList.close_table, hu, ih']

theorem add_col_absent (nm c : String) (v : PyVal) :
    ∀ tl : List Table, (∀ u ∈ tl, u.name ≠ nm) →
    TableList.add_col tl nm c v = tl := by
  intro tl
  induction tl with
  | nil => intro _; rfl
  | cons u us ih =>
    intro h
    have hu : u.name ≠ nm := h u (by simp)
    have ih' := ih (fun w hw => h w (by simp [hw]))
    simp [TableList.add_col, hu, ih']

theorem add_identifier_absent (nm c : String) (v : PyVal) :
    ∀ tl : List Table, (∀ u ∈ tl, u.name ≠ nm) →
    TableList.add_identifier tl nm c v = tl := by
  intro tl
  induction tl with
  | nil => intro _; rfl
  | cons u us ih =>
    intro h
    have hu : u.name ≠ nm := h u (by simp)
    have ih' := ih (fun w hw => h w (by simp [hw]))
    simp [TableList.add_identifier, hu, ih']

/-! ### Phase-state lemmas -/

theorem attribFold_state (p : Parser) (bp : String) :
    ∀ (attribs : List (String × String)) (tbl : String) (seen : List String) (st : WalkState)
      (tbl' : String) (seen' : List String) (st' : WalkState),
    attribFold p bp attribs tbl seen st = .ok (tbl', seen', st') →
    skel st'.tlist = skel st.tlist ∧ st'.stmts = st.stmts ∧ st'.nextRid = st.nextRid := by
  intro attribs
  induction attribs with
  | nil =>
    intro tbl seen st tbl' seen' st' h
    simp only [attribFold, Except.ok.injEq, Prod.mk.injEq] at h
    rw [← h.2.2]
    exact ⟨rfl, rfl, rfl⟩
  | cons kv rest ih =>
    intro tbl seen st tbl' seen' st' h
    obtain ⟨an, av⟩ := kv
    simp only [attribFold] at h
    split at h
    · exact ih _ _ _ _ _ _ h
    · rename_i v hv
      split at h
      · rename_i tn cn hs
        obtain ⟨e1, e2, e3⟩ := ih _ _ _ _ _ _ h
        refine ⟨?_, e2, e3⟩
        rw [e1]
        exact skel_add_col _ _ _ _
      · exact absurd h (by simp)

theorem attribFold_target (p : Parser) (bp : String) :
    ∀ (attribs : List (String × String)) (tbl : String) (seen : List String) (st : WalkState)
      (tbl' : String) (seen' : List String) (st' : WalkState),
    attribsTarget p bp attribs tbl = true →
    attribFold p bp attribs tbl seen st = .ok (tbl', seen', st') →
    tbl' = tbl := by
  intro attribs
  induction attribs with
  | nil =>
    intro tbl seen st tbl' seen' st' _ h
    simp only [attribFold, Except.ok.injEq, Prod.mk.injEq] at h
    exact h.1.symm
  | cons kv rest ih =>
    intro tbl seen st tbl' seen' st' ht h
    obtain ⟨an, av⟩ := kv
    simp only [attribsTarget, List.all_cons, Bool.and_eq_true] at ht
    obtain ⟨ht1, ht2⟩ := ht
    simp only [attribFold] at h
    split at h
    · rename_i hv
      exact ih _ _ _ _ _ _ (by simpa [attribsTarget] using ht2) h
    · rename_i v hv
      split at h
      · rename_i tn cn hs
        have htn : tn = tbl := by
          simp only [hv, hs] at ht1
          simpa using ht1
        subst htn
        exact ih _ _ _ _ _ _ (by simpa [attribsTarget] using ht2) h
      · exact absurd h (by simp)

theorem defaultsFold_state (p : Parser) :
    ∀ (defs : List (String × String)) (seen : List String) (tbl : String) (st : WalkState)
      (tbl' : String) (st' : WalkState),
    defaultsFold p defs seen tbl st = .ok (tbl', st') →
    skel st'.tlist = skel st.tlist ∧ st'.stmts = st.stmts ∧ st'.nextRid = st.nextRid := by
  intro defs
  induction defs with
  | nil =>
    intro seen tbl st tbl' st' h
    simp only [defaultsFold, Except.ok.injEq, Prod.mk.injEq] at h
    rw [← h.2]
    exact ⟨rfl, rfl, rfl⟩
  | cons kv rest ih =>
    intro seen tbl st tbl' st' h
    obtain ⟨an, full⟩ := kv
    simp only [defaultsFold] at h
    split at h
    · exact ih _ _ _ _ _ h
    · split at h
      · rename_i tn cn dv hs
        obtain ⟨e1, e2, e3⟩ := ih _ _ _ _ _ h
        refine ⟨?_, e2, e3⟩
        rw [e1]
        exact skel_add_col _ _ _ _
      · exact absurd h (by simp)

theorem defaultsFold_target (p : Parser) (newpath : String) :
    ∀ (seen : List String) (tbl : String) (st : WalkState) (tbl' : String) (st' : WalkState),
    defaultsTarget p newpath tbl = true →
    defaultsFold p (alistGetD p.attrib_defaults newpath []) seen tbl st = .ok (tbl', st') →
    tbl' = tbl := by
  have main : ∀ (defs : List (String × String)) (seen : List String) (tbl : String)
      (st : WalkState) (tbl' : String) (st' : WalkState),
      (defs.all (fun kv =>
        match (pySplit kv.2 (":")).take 3 with
        | [tn, _, _] => tn == tbl
        | _ => true)) = true →
      defaultsFold p defs seen tbl st = .ok (tbl', st') → tbl' = tbl := by
    intro defs
    induction defs with
    | nil =>
      intro seen tbl st tbl' st' _ h
      simp only [defaultsFold, Except.ok.injEq, Prod.mk.injEq] at h
      exact h.1.symm
    | cons kv rest ih =>
      intro seen tbl st tbl' st' ht h
      obtain ⟨an, full⟩ := kv
      simp only [List.all_cons, Bool.and_eq_true] at ht
      obtain ⟨ht1, ht2⟩ := ht
      simp only [defaultsFold] at h
      split at h
      · exact ih _ _ _ _ _ ht2 h
      · split at h
        · rename_i tn cn dv hs
          have htn : tn = tbl := by
            rw [hs] at ht1
            simpa using ht1
          subst htn
          exact ih _ _ _ _ _ ht2 h
        · exact absurd h (by simp)
  intro seen tbl st tbl' st' ht h
  exact main _ seen tbl st tbl' st' (by simpa [defaultsTarget] using ht) h

theorem nodeValue_state {p : Parser} {vp : String} {text : Option String} {st st' : WalkState}
    (h : nodeValue p vp text st = .ok st') :
    skel st'.tlist = skel st.tlist ∧ st'.stmts = st.stmts ∧ st'.nextRid = st.nextRid := by
  unfold nodeValue at h
  split at h
  · cases h; exact ⟨rfl, rfl, rfl⟩
  · split at h
    · cases h; exact ⟨rfl, rfl, rfl⟩
    · split at h
      · cases h
        exact ⟨skel_add_col _ _ _ _, rfl, rfl⟩
      · exact absurd h (by simp)

theorem nodeFileNumber_ok {p : Parser} {np : String} {st st' : WalkState}
    (h : nodeFileNumber p np st = .ok st') :
    st' = st ∧ alistGet? p.file_number_dict np = Option.none := by
  unfold nodeFileNumber at h
  split at h
  · cases h; rename_i hv; exact ⟨rfl, hv⟩
  · split at h <;> exact absurd h (by simp)

theorem recValue_ok {p : Parser} {vp : String} {st st' : WalkState}
    (h : recValue p vp st = .ok st') : st' = st := by
  unfold recValue at h
  split at h
  · cases h; rfl
  · exact absurd h (by simp)

theorem recFileNumber_state {p : Parser} {fp : String} {fn : PyVal} {st st' : WalkState}
    (h : recFileNumber p fp fn st = .ok st') :
    skel st'.tlist = skel st.tlist ∧ st'.stmts = st.stmts ∧ st'.nextRid = st.nextRid := by
  unfold recFileNumber at h
  split at h
  · cases h; exact ⟨rfl, rfl, rfl⟩
  · split at h
    · cases h; exact ⟨rfl, rfl, rfl⟩
    · split at h
      · cases h
        exact ⟨skel_add_col _ _ _ _, rfl, rfl⟩
      · exact absurd h (by simp)

/-! ### Transport lemmas for the ordering invariant -/

theorem stmtParentLater_of_rids {stmts : List Stmt} {a b : List Table}
    (hsub : ∀ r ∈ ridsT a, r ∈ ridsT b) (h : stmtParentLater stmts a) :
    stmtParentLater stmts b := by
  intro i s pr hi hpr
  rcases h i s pr hi hpr with hl | hr
  · exact Or.inl hl
  · exact Or.inr (hsub pr hr)

theorem stmtParentLater_of_skel {stmts : List Stmt} {a b : List Table}
    (hs : skel a = skel b) (h : stmtParentLater stmts a) :
    stmtParentLater stmts b :=
  stmtParentLater_of_rids (fun r hr => by rw [← ridsT_eq_of_skel hs]; exact hr) h

theorem stmtParentLater_close {stmts : List Stmt} {pre : List Table} {T : Table}
    (h : stmtParentLater stmts (pre ++ [T]))
    (hp : T.parentRid = Option.none ∨ ∃ pr0, T.parentRid = some pr0 ∧ pr0 ∈ ridsT pre) :
    stmtParentLater (stmts ++ [stmtOf T]) pre := by
  intro i s pr hi hpr
  by_cases hlen : i < stmts.length
  · rw [List.getElem?_append_left hlen] at hi
    rcases h i s pr hi hpr with ⟨j, t, hij, hj, hrid⟩ | hmem
    · have hjlen : j < stmts.length := by
        rcases List.getElem?_eq_some_iff.mp hj with ⟨hh, -⟩
        exact hh
      exact Or.inl ⟨j, t, hij, by rw [List.getElem?_append_left hjlen]; exact hj, hrid⟩
    · have : pr ∈ ridsT pre ∨ pr = T.rid := by
        simp only [ridsT, List.map_append, List.map_cons, List.map_nil, List.mem_append,
          List.mem_singleton] at hmem
        simpa [ridsT] using hmem
      rcases this with hin | heq
      · exact Or.inr hin
      · refine Or.inl ⟨stmts.length, stmtOf T, hlen, ?_, ?_⟩
        · exact List.getElem?_concat_length stmts (stmtOf T)
        · rw [heq]; rfl
  · push_neg at hlen
    rw [List.getElem?_append_right hlen] at hi
    rcases Nat.lt_or_ge (i - stmts.length) 1 with hsmall | hbig
    · have : i - stmts.length = 0 := Nat.lt_one_iff.mp hsmall
      rw [this] at hi
      simp only [List.getElem?_cons_zero, Option.some.injEq] at hi
      subst hi
      rcases hp with hnone | ⟨pr0, hsome, hin⟩
      · rw [show (stmtOf T).parentRid = T.parentRid from rfl, hnone] at hpr
        exact absurd hpr (by simp)
      · rw [show (stmtOf T).parentRid = T.parentRid from rfl, hsome] at hpr
        cases hpr
        exact Or.inr hin
    · have : ([stmtOf T] : List Stmt)[i - stmts.length]? = Option.none :=
        List.getElem?_eq_none (by simpa using hbig)
      rw [this] at hi
      exact absurd hi (by simp)

/-! ### The main walk invariant -/

mutual

/-- Invariant preservation of `parse_node` on a clean walk: the skeleton of
the open-table list is restored (the node closes exactly what it opens),
the fresh-identity counter grows, statements are only appended, and the
full invariant (distinct open names, identity bounds, parent-emitted-later
ordering) is preserved. -/
theorem parse_node_ok (p : Parser) (node : XNode) :
    ∀ (path last : String) (st st' : WalkState),
    walkInv st → last ∈ names st.tlist →
    cleanNode p node path last (names st.tlist) = true →
    parse_node p node path last st = .ok st' →
    skel st'.tlist = skel st.tlist ∧ st.nextRid ≤ st'.nextRid ∧
    (∃ Δ, st'.stmts = st.stmts ++ Δ) ∧ walkInv st' := by
  intro path last st st' hinv hlast hclean hrun
  cases node with
  | mk tagRaw attribs text children =>
    simp only [parse_node] at hrun
    simp only [cleanNode] at hclean
    simp only [nodeOpen] at hrun
    split at hclean
    · -- a table is opened at this node
      rename_i tn hlook
      simp only [Bool.and_eq_true] at hclean
      obtain ⟨⟨⟨hfreshB, hat⟩, hdt⟩, hcf⟩ := hclean
      have hfresh : tn ∉ names st.tlist := by simpa using hfreshB
      simp only [hlook] at hrun
      split at hrun
      · exact absurd hrun (by simp)
      · rename_i nt tbl0 st1 hmid
        split at hmid
        · exact absurd hmid (by simp)
        · rename_i tl hadd
          simp only [Except.ok.injEq, Prod.mk.injEq] at hmid
          obtain ⟨hnt, htbl0, hst1⟩ := hmid
          subst hnt
          subst htbl0
          subst hst1
          obtain ⟨r, hr, hskelTl⟩ := add_table_spec hlast hadd
          split at hrun
          · exact absurd hrun (by simp)
          · rename_i st2 hfn
            obtain ⟨hst2, -⟩ := nodeFileNumber_ok hfn
            subst hst2
            split at hrun
            · exact absurd hrun (by simp)
            · rename_i tbl1 seen st3 hafold
              obtain ⟨hsk3, hsm3, hnr3⟩ := attribFold_state p _ _ _ _ _ _ _ _ hafold
              have htbl1 : tbl1 = tn := attribFold_target p _ _ _ _ _ _ _ _ hat hafold
              rw [htbl1] at hrun
              split at hrun
              · exact absurd hrun (by simp)
              · rename_i tbl2 st4 hdfold
                obtain ⟨hsk4, hsm4, hnr4⟩ := defaultsFold_state p _ _ _ _ _ _ hdfold
                have htbl2 : tbl2 = tn := defaultsFold_target p _ _ _ _ _ _ hdt hdfold
                rw [htbl2] at hrun
                split at hrun
                · exact absurd hrun (by simp)
                · rename_i st5 hval
                  obtain ⟨hsk5, hsm5, hnr5⟩ := nodeValue_state hval
                  -- state after the column phases
                  have hsk5' : skel st5.tlist = skel st.tlist ++ [(st.nextRid, some r, tn)] := by
                    rw [hsk5, hsk4, hsk3]
                    exact hskelTl
                  have hsm5' : st5.stmts = st.stmts := by rw [hsm5, hsm4, hsm3]
                  have hnr5' : st5.nextRid = st.nextRid + 1 := by rw [hnr5, hnr4, hnr3]
                  have hnames5 : names st5.tlist = names st.tlist ++ [tn] := by
                    rw [names_skel, hsk5', List.map_append, ← names_skel]
                    rfl
                  have hrids5 : ridsT st5.tlist = ridsT st.tlist ++ [st.nextRid] := by
                    rw [ridsT_skel, hsk5', List.map_append, ← ridsT_skel]
                    rfl
                  obtain ⟨hnd, hbT, hbS, hord⟩ := hinv
                  have hinv5 : walkInv st5 := by
                    refine ⟨?_, ?_, ?_, ?_⟩
                    · rw [hnames5]
                      exact List.nodup_append.mpr ⟨hnd, by simp,
                        fun a hal har => by
                          simp only [List.mem_singleton] at har
                          subst har
                          exact hfresh hal⟩
                    · intro rr hrr
                      rw [hrids5] at hrr
                      rw [hnr5']
                      rcases List.mem_append.mp hrr with hin | hin
                      · exact Nat.lt_succ_of_lt (hbT rr hin)
                      · simp only [List.mem_singleton] at hin
                        subst hin
                        exact Nat.lt_succ_self _
                    · intro rr hrr
                      rw [hsm5'] at hrr
                      rw [hnr5']
                      exact Nat.lt_succ_of_lt (hbS rr hrr)
                    · rw [hsm5']
                      refine stmtParentLater_of_rids ?_ hord
                      intro rr hrr
                      rw [hrids5]
                      exact List.mem_append.mpr (Or.inl hrr)
                  split at hrun
                  · exact absurd hrun (by simp)
                  · rename_i st6 hch
                    have hlast6 : tn ∈ names st5.tlist := by
                      rw [hnames5]
                      exact List.mem_append.mpr (Or.inr (by simp))
                    have hcf5 : cleanForest p children (path ++ ("/") ++ stripNs tagRaw) tn
                        (names st5.tlist) = true := by
                      rw [hnames5]
                      exact hcf
                    obtain ⟨hsk6, hnr6, ⟨Δ, hΔ⟩, hinv6⟩ :=
                      parse_children_ok p children _ tn st5 st6 hinv5 hlast6 hcf5 hch
                    -- close the table opened at this node
                    have hsk6' : skel st6.tlist = skel st.tlist ++ [(st.nextRid, some r, tn)] := by
                      rw [hsk6]
                      exact hsk5'
                    obtain ⟨pre, T, hdec, hpreskel, hTskel⟩ :=
                      skel_snoc_decomp st6.tlist _ _ hsk6'
                    have hTrid : T.rid = st.nextRid := congrArg Prod.fst hTskel
                    have hTpar : T.parentRid = some r := by
                      have := congrArg (fun q => q.2.1) hTskel
                      simpa using this
                    have hTname : T.name = tn := by
                      have := congrArg (fun q => q.2.2) hTskel
                      simpa using this
                    have hprenames : names pre = names st.tlist := names_eq_of_skel hpreskel
                    have hprerids : ridsT pre = ridsT st.tlist := ridsT_eq_of_skel hpreskel
                    have hprefresh : ∀ u ∈ pre, u.name ≠ T.name := by
                      intro u hu he
                      apply hfresh
                      rw [← hprenames]
                      rw [hTname] at he
                      rw [← he]
                      exact List.mem_map_of_mem Table.name hu
                    have hclose : TableList.close_table st6.tlist tn st6.stmts =
                        (pre, st6.stmts ++ [stmtOf T]) := by
                      rw [hdec, ← hTname]
                      have := close_table_found T st6.stmts pre [] hprefresh
                      simpa using this
                    rw [hclose] at hrun
                    simp only [if_true, Except.ok.injEq] at hrun
                    subst hrun
                    obtain ⟨hnd6, hbT6, hbS6, hord6⟩ := hinv6
                    refine ⟨?_, ?_, ?_, ?_, ?_, ?_, ?_⟩
                    · exact hpreskel.trans rfl
                    · calc st.nextRid ≤ st.nextRid + 1 := Nat.le_succ _
                        _ = st5.nextRid := hnr5'.symm
                        _ ≤ st6.nextRid := hnr6
                    · exact ⟨Δ ++ [stmtOf T], by rw [hΔ, hsm5', List.append_assoc]⟩
                    · rw [show names pre = names st.tlist from hprenames]
                      exact hnd
                    · intro rr hrr
                      apply hbT6
                      rw [hdec, ridsT, List.map_append]
                      exact List.mem_append.mpr (Or.inl hrr)
                    · intro rr hrr
                      rw [ridsS, List.map_append] at hrr
                      rcases List.mem_append.mp hrr with hin | hin
                      · exact hbS6 rr hin
                      · simp only [List.map_cons, List.map_nil, List.mem_singleton] at hin
                        subst hin
                        apply hbT6
                        rw [hdec, ridsT, List.map_append]
                        exact List.mem_append.mpr (Or.inr (by simp [stmtOf]))
                    · refine stmtParentLater_close ?_ ?_
                      · rw [← hdec]
                        exact hord6
                      · exact Or.inr ⟨r, hTpar, by rw [hprerids]; exact hr⟩
    · -- no table is opened at this node
      rename_i hlook
      simp only [Bool.and_eq_true] at hclean
      obtain ⟨⟨hat, hdt⟩, hcf⟩ := hclean
      simp only [hlook] at hrun
      split at hrun
      · exact absurd hrun (by simp)
      · rename_i st2 hfn
        obtain ⟨hst2, -⟩ := nodeFileNumber_ok hfn
        rw [hst2] at hrun
        split at hrun
        · exact absurd hrun (by simp)
        · rename_i tbl1 seen st3 hafold
          obtain ⟨hsk3, hsm3, hnr3⟩ := attribFold_state p _ _ _ _ _ _ _ _ hafold
          have htbl1 : tbl1 = last := attribFold_target p _ _ _ _ _ _ _ _ hat hafold
          rw [htbl1] at hrun
          split at hrun
          · exact absurd hrun (by simp)
          · rename_i tbl2 st4 hdfold
            obtain ⟨hsk4, hsm4, hnr4⟩ := defaultsFold_state p _ _ _ _ _ _ hdfold
            have htbl2 : tbl2 = last := defaultsFold_target p _ _ _ _ _ _ hdt hdfold
            rw [htbl2] at hrun
            split at hrun
            · exact absurd hrun (by simp)
            · rename_i st5 hval
              obtain ⟨hsk5, hsm5, hnr5⟩ := nodeValue_state hval
              have hsk5' : skel st5.tlist = skel st.tlist := by rw [hsk5, hsk4, hsk3]
              have hsm5' : st5.stmts = st.stmts := by rw [hsm5, hsm4, hsm3]
              have hnr5' : st5.nextRid = st.nextRid := by rw [hnr5, hnr4, hnr3]
              have hnames5 : names st5.tlist = names st.tlist := names_eq_of_skel hsk5'
              have hrids5 : ridsT st5.tlist = ridsT st.tlist := ridsT_eq_of_skel hsk5'
              obtain ⟨hnd, hbT, hbS, hord⟩ := hinv
              have hinv5 : walkInv st5 := by
                refine ⟨by rw [hnames5]; exact hnd, ?_, ?_, ?_⟩
                · intro rr hrr
                  rw [hrids5] at hrr
                  rw [hnr5']
                  exact hbT rr hrr
                · intro rr hrr
                  rw [hsm5'] at hrr
                  rw [hnr5']
                  exact hbS rr hrr
                · rw [hsm5']
                  exact stmtParentLater_of_skel hsk5'.symm hord
              split at hrun
              · exact absurd hrun (by simp)
              · rename_i st6 hch
                have hlast5 : last ∈ names st5.tlist := by rw [hnames5]; exact hlast
                have hcf5 : cleanForest p children (path ++ ("/") ++ stripNs tagRaw) last
                    (names st5.tlist) = true := by
                  rw [hnames5]
                  exact hcf
                obtain ⟨hsk6, hnr6, ⟨Δ, hΔ⟩, hinv6⟩ :=
                  parse_children_ok p children _ last st5 st6 hinv5 hlast5 hcf5 hch
                simp only [Bool.false_eq_true, if_false, Except.ok.injEq] at hrun
                subst hrun
                refine ⟨by rw [hsk6, hsk5'], ?_, ⟨Δ, by rw [hΔ, hsm5']⟩, hinv6⟩
                calc st.nextRid = st5.nextRid := hnr5'.symm
                  _ ≤ st6.nextRid := hnr6

/-- Invariant preservation of the child loop. -/
theorem parse_children_ok (p : Parser) (cs : XForest) :
    ∀ (path last : String) (st st' : WalkState),
    walkInv st → last ∈ names st.tlist →
    cleanForest p cs path last (names st.tlist) = true →
    parse_children p cs path last st = .ok st' →
    skel st'.tlist = skel st.tlist ∧ st.nextRid ≤ st'.nextRid ∧
    (∃ Δ, st'.stmts = st.stmts ++ Δ) ∧ walkInv st' := by
  intro path last st st' hinv hlast hclean hrun
  cases cs with
  | nil =>
    simp only [parse_children, Except.ok.injEq] at hrun
    subst hrun
    exact ⟨rfl, Nat.le_refl _, ⟨[], by simp⟩, hinv⟩
  | cons c rest =>
    simp only [parse_children] at hrun
    simp only [cleanForest, Bool.and_eq_true] at hclean
    obtain ⟨hc1, hc2⟩ := hclean
    split at hrun
    · exact absurd hrun (by simp)
    · rename_i st1 hstep
      obtain ⟨hsk1, hnr1, ⟨Δ1, hΔ1⟩, hinv1⟩ :=
        parse_node_ok p c path last st st1 hinv hlast hc1 hstep
      have hn1 : names st1.tlist = names st.tlist := names_eq_of_skel hsk1
      obtain ⟨hsk2, hnr2, ⟨Δ2, hΔ2⟩, hinv2⟩ :=
        parse_children_ok p rest path last st1 st' hinv1 (by rw [hn1]; exact hlast)
          (by rw [hn1]; exact hc2) hrun
      exact ⟨by rw [hsk2, hsk1], Nat.le_trans hnr1 hnr2,
        ⟨Δ1 ++ Δ2, by rw [hΔ2, hΔ1, List.append_assoc]⟩, hinv2⟩

end

/-- On a clean record, the final `statement_list` is in strict post-order:
every statement with a parent row is followed, strictly later in the list,
by that parent row's own statement. -/
theorem parseRecord_ordered (p : Parser) (fn : PyVal) (elem : XNode) (L : List Stmt)
    (hclean : cleanRecord p elem = true)
    (hrun : parseRecord p fn elem = .ok L) :
    ∀ (i : Nat) (s : Stmt) (pr : Nat), L[i]? = some s → s.parentRid = some pr →
      ∃ (j : Nat) (t : Stmt), i < j ∧ L[j]? = some t ∧ t.rid = pr := by
  simp only [cleanRecord] at hclean
  split at hclean
  case h_2 => exact absurd hclean (by simp)
  rename_i core hlookc
  simp only [parseRecord, hlookc] at hrun
  simp only [TableList.add_table, Table.init, List.nil_append] at hrun
  split at hrun
  · exact absurd hrun (by simp)
  · rename_i id_value hid
    split at hrun
    · exact absurd hrun (by simp)
    · rename_i st1 hrfn
      obtain ⟨hsk1, hsm1, hnr1⟩ := recFileNumber_state hrfn
      split at hrun
      · exact absurd hrun (by simp)
      · rename_i tblA seenA st2 hafold
        obtain ⟨hsk2, hsm2, hnr2⟩ := attribFold_state p _ _ _ _ _ _ _ _ hafold
        split at hrun
        · exact absurd hrun (by simp)
        · rename_i tblB st3 hdfold
          obtain ⟨hsk3, hsm3, hnr3⟩ := defaultsFold_state p _ _ _ _ _ _ hdfold
          split at hrun
          · exact absurd hrun (by simp)
          · rename_i st4 hrv
            have hst4 : st4 = st3 := recValue_ok hrv
            rw [hst4] at hrun
            split at hrun
            · exact absurd hrun (by simp)
            · rename_i st5 hch
              -- the state entering the child walk
              have hskc : skel st3.tlist =
                  [(0, Option.none, core)] := by
                rw [hsk3, hsk2, hsk1]
                rw [show ∀ (l : List Table) (nm c : String) (v : PyVal),
                  skel (TableList.add_identifier l nm c v) = skel l from
                  fun l nm c v => skel_add_identifier l nm c v]
                rfl
              have hnrc : st3.nextRid = 1 := by rw [hnr3, hnr2, hnr1]
              have hsmc : st3.stmts = [] := by rw [hsm3, hsm2, hsm1]
              have hnamesc : names st3.tlist = [core] := by
                rw [names_skel, hskc]
                rfl
              have hinvc : walkInv st3 := by
                refine ⟨by rw [hnamesc]; simp, ?_, ?_, ?_⟩
                · intro rr hrr
                  rw [ridsT_skel, hskc] at hrr
                  simp at hrr
                  simp [hrr, hnrc]
                · intro rr hrr
                  rw [hsmc] at hrr
                  simp [ridsS] at hrr
                · rw [hsmc]
                  intro i s pr hi
                  simp at hi
              have hlastc : core ∈ names st3.tlist := by rw [hnamesc]; simp
              have hcfc : cleanForest p elem.children p.rec_tag core (names st3.tlist) = true := by
                rw [hnamesc]
                exact hclean
              obtain ⟨hsk5, -, ⟨Δ, hΔ⟩, hinv5⟩ :=
                parse_children_ok p elem.children _ core st3 st5 hinvc hlastc hcfc hch
              have hsk5' : skel st5.tlist = [] ++ [(0, Option.none, core)] := by
                rw [hsk5, hskc]
                rfl
              obtain ⟨pre, T, hdec, hpreskel, hTskel⟩ := skel_snoc_decomp st5.tlist _ _ hsk5'
              have hpre : pre = [] := by
                have := hpreskel
                simp only [skel] at this
                exact List.map_eq_nil_iff.mp this
              subst hpre
              have hTpar : T.parentRid = Option.none := by
                have := congrArg (fun q => q.2.1) hTskel
                simpa using this
              have hTname : T.name = core := by
                have := congrArg (fun q => q.2.2) hTskel
                simpa using this
              simp only [List.nil_append] at hdec
              have hclose : TableList.close_table st5.tlist core st5.stmts =
                  ([], st5.stmts ++ [stmtOf T]) := by
                rw [hdec, ← hTname]
                have := close_table_found T st5.stmts [] [] (by simp)
                simpa using this
              rw [hclose] at hrun
              simp only [Except.ok.injEq] at hrun
              subst hrun
              have hfinal : stmtParentLater (st5.stmts ++ [stmtOf T]) [] := by
                refine stmtParentLater_close ?_ (Or.inl hTpar)
                rw [show ([] : List Table) ++ [T] = [T] from rfl, ← hdec]
                exact hinv5.2.2.2
              intro i s pr hi hpr
              rcases hfinal i s pr hi hpr with h | h
              · exact h
              · simp [ridsT] at h

/-! ### Claim C1 -/

/-- C1 (amended): for every record processed in which (a) no table is
opened while an open table already carries the same name and (b) every
mapped attribute/default at a node targets the table in effect there (the
conditions `cleanRecord` captures — without them the name-based close and
parent lookup of `TableList` can pick the wrong table), the emitted
sequence for the record (`statement_list` written out reversed) places the
statement of the row whose identifiers a statement inherited strictly
before that statement: statements are appended at close time (post-order)
and written out reversed, giving parent-before-child. -/
theorem c1_parent_before_child (p : Parser) (fn : PyVal) (elem : XNode) (L : List Stmt)
    (hclean : cleanRecord p elem = true)
    (hrun : parseRecord p fn elem = .ok L) :
    ∀ (j : Nat) (s : Stmt) (pr : Nat), (L.reverse)[j]? = some s → s.parentRid = some pr →
      ∃ (i : Nat) (t : Stmt), i < j ∧ (L.reverse)[i]? = some t ∧ t.rid = pr := by
  intro j s pr hj hpr
  have hjlen : j < L.length := by
    have := (List.getElem?_eq_some_iff.mp hj).1
    rwa [List.length_reverse] at this
  rw [List.getElem?_reverse hjlen] at hj
  obtain ⟨j0, t, hij0, hj0, hrid⟩ :=
    parseRecord_ordered p fn elem L hclean hrun (L.length - 1 - j) s pr hj hpr
  have hj0len : j0 < L.length := (List.getElem?_eq_some_iff.mp hj0).1
  refine ⟨L.length - 1 - j0, t, by omega, ?_, hrid⟩
  rw [List.getElem?_reverse (by omega)]
  rw [show L.length - 1 - (L.length - 1 - j0) = j0 from by omega]
  exact hj0

/-- C1 (counterexample): the claim as stated is false.  When a nested path
opens a table with the SAME name as its (still open) parent table, the
name-based `close_table` closes the outer table first, so the outer row's
statement is appended before the inner row's; after the final reversal the
inner row's statement — which inherited the outer row's identifiers —
precedes its parent's statement.  Concretely: the record tag `rec` maps to
table `t` and the nested path `rec/a` also maps to table `t` (with counter
`t:seq`); the walk completes without error and the emitted order violates
parent-before-child. -/
theorem c1_counterexample :
    (parseRecord
        { table_dict := [(("rec/"), ("t")), (("rec/a/"), ("t"))],
          ctr_dict := [(("rec/a/"), ("t:seq"))],
          rec_tag := ("rec"), id_tag := ("rec") }
        (PyVal.int (-1))
        (XNode.mk ("rec") [] (some ("X"))
          (XForest.cons (XNode.mk ("a") [] Option.none XForest.nil) XForest.nil))).map
      (fun l => parentBefore l.reverse) = .ok false := by
  rfl

/-- Concrete clean record used by the C1 witness: core table `a`, nested
table `btab` with counter `btab:ct`. -/
def c1wP : Parser :=
  { table_dict := [(("rec/"), ("a")), (("rec/b/"), ("btab"))],
    ctr_dict := [(("rec/b/"), ("btab:ct"))],
    rec_tag := ("rec"), id_tag := ("rec") }

/-- The record element of the C1 witness. -/
def c1wN : XNode :=
  XNode.mk ("rec") [] (some ("X"))
    (XForest.cons (XNode.mk ("b") [] Option.none XForest.nil) XForest.nil)

/-- The statement list the engine emits for the C1 witness record. -/
def c1wL : List Stmt := ((parseRecord c1wP (PyVal.int (-1)) c1wN).toOption).getD []

/-- The statement at position 1 of the C1 witness output (the `btab` child
row, which inherited the identifiers of the core row with identity 0). -/
def c1wS : Stmt :=
  ((c1wL.reverse)[1]?).getD { rid := 99, parentRid := Option.none, table := (""), sql := ("") }

/-- C1 (witness): the amended theorem applied to a concrete clean record;
the child row's statement (at output position 1) is preceded by the
statement of the row whose identifiers it inherited. -/
theorem c1_witness :
    cleanRecord c1wP c1wN = true ∧
    ∃ (i : Nat) (t : Stmt), i < 1 ∧ (c1wL.reverse)[i]? = some t ∧ t.rid = 0 :=
  ⟨rfl, c1_parent_before_child c1wP (PyVal.int (-1)) c1wN c1wL (by rfl) (by rfl)
    1 c1wS 0 (by rfl) (by rfl)⟩

/-! ### Claim C8 -/

theorem concatMap_append {α β : Type} (g : α → List β) (l1 l2 : List α) :
    concatMap g (l1 ++ l2) = concatMap g l1 ++ concatMap g l2 := by
  induction l1 with
  | nil => rfl
  | cons a t ih => simp [concatMap, ih]

theorem replaceChar_single (old : Char) (new : List Char) :
    ∀ l : List Char, replaceChar old new l =
      concatMap (fun c => if c = old then new else [c]) l := by
  intro l
  induction l with
  | nil => rfl
  | cons c cs ih =>
    by_cases h : c = old
    · simp [replaceChar, h, concatMap, ih]
    · simp [replaceChar, h, concatMap, ih]

theorem concatMap_concatMap {α β γ : Type} (f : α → List β) (g : β → List γ) :
    ∀ l : List α, concatMap g (concatMap f l) = concatMap (fun a => concatMap g (f a)) l := by
  intro l
  induction l with
  | nil => rfl
  | cons a t ih => simp [concatMap, concatMap_append, ih]

theorem concatMap_congr {α β : Type} {f g : α → List β} :
    ∀ l : List α, (∀ a ∈ l, f a = g a) → concatMap f l = concatMap g l := by
  intro l
  induction l with
  | nil => intro _; rfl
  | cons a t ih =>
    intro h
    simp only [concatMap]
    rw [h a (by simp), ih (fun b hb => h b (by simp [hb]))]

theorem dbEscape_spec (l : List Char) : dbEscape l = concatMap escSpecChar l := by
  unfold dbEscape
  rw [replaceChar_single, replaceChar_single, replaceChar_single]
  rw [concatMap_concatMap, concatMap_concatMap]
  apply concatMap_congr
  intro c _
  by_cases h1 : c = '\''
  · subst h1; rfl
  · by_cases h2 : c = '\\'
    · subst h2; rfl
    · by_cases h3 : c = '\n'
      · subst h3; rfl
      · simp [concatMap, h1, h2, h3, escSpecChar]

/-- C8: `db_string` on a string value equals the character-wise map that
doubles every single quote, doubles every backslash, and removes every
newline, leaving all other characters unchanged — so embedding the result
in single quotes represents the original value with newlines stripped and
quotes/backslashes doubled.  (The sequential `replace` chain of the source
has this simultaneous character-wise semantics because the three patterns
are disjoint single characters.) -/
theorem c8_db_string_charwise (s : String) :
    db_string (PyVal.str s) = String.mk (concatMap escSpecChar s.data) := by
  simp only [db_string]
  rw [dbEscape_spec]

/-! ### Claim C5 -/

/-- A table with a single data column holding Python `None`, used for C5. -/
def c5T : Table :=
  { rid := 0, parentRid := Option.none, name := ("t"), parent_name := Option.none,
    columns := [(("c"), PyVal.none)],
    identifiers := [(("id"), PyVal.str (value_quote ++ ("1") ++ value_quote))],
    counters := [] }

/-- C5 (counterexample): the claim as stated is false.  `db_string` does
turn `None` into the bare string `NULL`, but `create_insert` wraps every
non-identifier column value in single quotes unconditionally, so a
null/absent column renders as the QUOTED string literal `'NULL'`, not as
the unquoted SQL keyword. -/
theorem c5_counterexample :
    Table.create_insert c5T =
      ("INSERT INTO \"t\" (\"id\",\"c\") VALUES (") ++ value_quote ++ ("1") ++ value_quote ++
        (",") ++ value_quote ++ ("NULL") ++ value_quote ++ (");") ∧
    Table.create_insert c5T ≠
      ("INSERT INTO \"t\" (\"id\",\"c\") VALUES (") ++ value_quote ++ ("1") ++ value_quote ++
        (",NULL);") := by
  exact ⟨rfl, by decide⟩

/-- C5 (amended): a null/absent (`None`) column value is converted by
`db_string` to the four-character string `NULL`, but the column rendering
of `create_insert` wraps it in single quotes like any other column value,
so it appears in the INSERT statement as the quoted literal `'NULL'`,
never as an unquoted `NULL`. -/
theorem c5_null_renders_quoted :
    db_string PyVal.none = ("NULL") ∧
    colValueSql PyVal.none = value_quote ++ ("NULL") ++ value_quote ∧
    Table.create_insert c5T =
      ("INSERT INTO \"t\" (\"id\",\"c\") VALUES (") ++ value_quote ++ ("1") ++ value_quote ++
        (",") ++ value_quote ++ ("NULL") ++ value_quote ++ (");") := by
  exact ⟨rfl, rfl, rfl⟩

/-! ### Claim C4 -/

/-- C4: counters are parent-scoped sequences: (i) the first request for a
counter-id on an owning table returns 1; (ii) a repeated request on the
resulting table returns the successor, so values increase by exactly 1;
(iii) every newly constructed owning table starts with an empty counter
store, so every counter starts afresh at 1, also across sibling rows that
use the same counter-id. -/
theorem c4_counters :
    (∀ (t : Table) (p : Parser) (path v tb cid : String),
      alistGet? p.ctr_dict (path ++ ("/")) = some v →
      pySplitOnce v (":") = [tb, cid] →
      alistGet? t.counters cid = Option.none →
      t.get_counter p path = .ok (cid, 1, { t with counters := alistSet t.counters cid 1 })) ∧
    (∀ (t : Table) (p : Parser) (path cid : String) (n : Int) (t1 : Table),
      t.get_counter p path = .ok (cid, n, t1) →
      ∃ t2, t1.get_counter p path = .ok (cid, n + 1, t2)) ∧
    (∀ (p : Parser) (rid : Nat) (nm : String) (pn : Option String) (tl tl2 : List Table)
      (tpath : String) (T : Table),
      Table.init p rid nm pn tl tpath = .ok (T, tl2) → T.counters = []) := by
  refine ⟨?_, ?_, ?_⟩
  · intro t p path v tb cid hv hs hcid
    simp only [Table.get_counter, hv, hs]
    simp [alistGetD, hcid]
  · intro t p path cid n t1 h
    obtain ⟨hn, ht1, v, tb, hv, hs⟩ := get_counter_ok h
    refine ⟨{ t1 with counters := alistSet t1.counters cid (n + 1) }, ?_⟩
    simp only [Table.get_counter, hv, hs]
    have hget : alistGetD t1.counters cid 0 = n := by
      rw [ht1]
      simp [alistGetD, alistGet?_set_self]
    rw [hget]
  · intro p rid nm pn tl tl2 tpath T h
    simp only [Table.init] at h
    split at h
    · simp only [Except.ok.injEq, Prod.mk.injEq] at h
      rw [← h.1]
    · rename_i pname
      split at h
      · exact absurd h (by simp)
      · rename_i s tl0 pr hinit
        simp only [Except.ok.injEq, Prod.mk.injEq] at h
        obtain ⟨h1, -⟩ := h
        rw [← h1]
        exact (initInherit_spec p tpath pname _ _ _ _ _ _ hinit).2.1

/-- A fresh owning table for the C4 witness. -/
def c4wT : Table :=
  { rid := 0, parentRid := Option.none, name := ("t"), parent_name := Option.none,
    columns := [], identifiers := [], counters := [] }

/-- The configuration for the C4 witness. -/
def c4wP : Parser := { ctr_dict := [(("x/"), ("t:ct"))] }

/-- C4 (witness): a concrete owning table with a fresh counter store hands
out 1 and then 2 for the same counter-id. -/
theorem c4_witness :
    (Table.get_counter c4wT c4wP ("x") =
      .ok (("ct"), 1, { c4wT with counters := alistSet [] ("ct") 1 })) ∧
    (∃ t2, Table.get_counter { c4wT with counters := alistSet [] ("ct") 1 } c4wP ("x") =
      .ok (("ct"), 1 + 1, t2)) := by
  constructor
  · exact c4_counters.1 c4wT c4wP ("x") ("t:ct") ("t") ("ct") (by rfl) (by rfl) (by rfl)
  · exact c4_counters.2.1 c4wT c4wP ("x") ("ct") 1 { c4wT with counters := alistSet [] ("ct") 1 }
      (c4_counters.1 c4wT c4wP ("x") ("t:ct") ("t") ("ct") (by rfl) (by rfl) (by rfl))

/-! ### Claim C3 -/

theorem initInherit_no_match (p : Parser) (path pn : String) :
    ∀ (l : List Table) (acc : Table) (pr : Option Nat), (∀ t ∈ l, t.name ≠ pn) →
    initInherit p path pn l acc pr = .ok (acc, l, pr) := by
  intro l
  induction l with
  | nil => intro acc pr _; rfl
  | cons t ts ih =>
    intro acc pr h
    have ht : t.name ≠ pn := h t (by simp)
    simp only [initInherit, if_neg ht]
    rw [ih acc pr (fun u hu => h u (by simp [hu]))]

theorem initInherit_decomp (p : Parser) (path pn : String) (P : Table)
    (hP : P.name = pn) (l2 : List Table) (h2 : ∀ t ∈ l2, t.name ≠ pn) :
    ∀ (l1 : List Table) (acc : Table) (pr : Option Nat), (∀ t ∈ l1, t.name ≠ pn) →
    initInherit p path pn (l1 ++ P :: l2) acc pr =
      (match P.get_counter p path with
      | .error e => .error e
      | .ok (cid, n, P1) =>
        .ok ((P.identifiers.foldl (fun s kv => s.add_identifier kv.1 kv.2) acc).add_identifier
              cid (.int n),
          l1 ++ P1 :: l2, some P.rid)) := by
  intro l1
  induction l1 with
  | nil =>
    intro acc pr _
    simp only [List.nil_append, initInherit, if_pos hP]
    rcases hgc : P.get_counter p path with e | ⟨cid, n, P1⟩
    · simp
    · simp only []
      rw [initInherit_no_match p path pn l2 _ _ h2]
  | cons t ts ih =>
    intro acc pr h
    have ht : t.name ≠ pn := h t (by simp)
    simp only [List.cons_append, initInherit, if_neg ht, List.append_eq]
    rw [ih acc pr (fun u hu => h u (by simp [hu]))]
    rcases hgc : P.get_counter p path with e | ⟨cid, n, P1⟩ <;> simp [hgc]

/-- C3 (amended): when a non-root table row is created and its counter-id
does NOT collide with any inherited identifier name, its identifier
mapping equals its (unique) parent row's full identifier mapping, copied
by value, plus exactly one additional (counter-id, value) pair appended at
the end.  (When the counter-id equals an inherited identifier name, the
`OrderedDict` assignment overwrites the inherited entry in place instead
of adding a pair — see the counterexample.) -/
theorem c3_identifier_inheritance (p : Parser) (rid : Nat) (nm pn tpath : String)
    (l1 l2 : List Table) (P : Table) (v tb cid : String)
    (h1 : ∀ t ∈ l1, t.name ≠ pn) (h2 : ∀ t ∈ l2, t.name ≠ pn) (hP : P.name = pn)
    (hnd : (alistKeys P.identifiers).Nodup)
    (hc : alistGet? p.ctr_dict (tpath ++ ("/")) = some v)
    (hs : pySplitOnce v (":") = [tb, cid])
    (hfresh : cid ∉ alistKeys P.identifiers) :
    ∀ (T : Table) (tl2 : List Table),
    Table.init p rid nm (some pn) (l1 ++ P :: l2) tpath = .ok (T, tl2) →
    T.identifiers = P.identifiers ++ [(cid, PyVal.int (alistGetD P.counters cid 0 + 1))] := by
  intro T tl2 h
  simp only [Table.init] at h
  have hgc : P.get_counter p tpath = .ok (cid, alistGetD P.counters cid 0 + 1,
      { P with counters := alistSet P.counters cid (alistGetD P.counters cid 0 + 1) }) := by
    simp only [Table.get_counter, hc, hs]
  rw [initInherit_decomp p tpath pn P hP l2 h2 l1 _ _ h1, hgc] at h
  simp only [Except.ok.injEq, Prod.mk.injEq] at h
  obtain ⟨hT, -⟩ := h
  rw [← hT]
  have e1 : ∀ (x : Table) (c : String) (w : PyVal),
      (x.add_identifier c w).identifiers = alistSet x.identifiers c w := fun _ _ _ => rfl
  have e2 : ∀ (x : Table) (prid : Option Nat),
      ({ x with parentRid := prid } : Table).identifiers = x.identifiers := fun _ _ => rfl
  have e3 : ∀ (kvs : List (String × PyVal)) (x : Table),
      (kvs.foldl (fun s kv => Table.add_identifier s kv.1 kv.2) x).identifiers =
        kvs.foldl (fun m kv => alistSet m kv.1 kv.2) x.identifiers := by
    intro kvs x
    rw [foldl_add_identifier]
  rw [e2, e1, e3]
  show alistSet (P.identifiers.foldl (fun m kv => alistSet m kv.1 kv.2) [])
      cid (PyVal.int (alistGetD P.counters cid 0 + 1)) =
    P.identifiers ++ [(cid, PyVal.int (alistGetD P.counters cid 0 + 1))]
  rw [foldl_alistSet_rebuild P.identifiers [] hnd (by simp [alistKeys])]
  rw [List.nil_append]
  exact alistSet_fresh P.identifiers cid _ hfresh

/-- The parent table for the C3 counterexample and witness: its single
identifier is the primary key column `id`. -/
def c3P : Table :=
  { rid := 0, parentRid := Option.none, name := ("t"), parent_name := Option.none,
    columns := [], identifiers := [(("id"), PyVal.str (value_quote ++ ("X") ++ value_quote))],
    counters := [] }

/-- C3 (counterexample): the claim as stated is false.  When the
configured counter-id equals an inherited identifier name (here the
counter `u:id` collides with the inherited primary key `id`), the
`OrderedDict` assignment overwrites the inherited entry in place: the new
row's identifier mapping is NOT the parent's mapping plus one additional
pair — the parent's value is lost. -/
theorem c3_counterexample :
    (Table.init { ctr_dict := [(("rec/a/"), ("u:id"))] } 1 ("u") (some ("t")) [c3P]
        ("rec/a")).map (fun r => r.fst.identifiers) = .ok [(("id"), PyVal.int 1)] ∧
    ([(("id"), PyVal.int 1)] : List (String × PyVal)) ≠
      c3P.identifiers ++ [(("id"), PyVal.int 1)] := by
  exact ⟨rfl, by decide⟩

/-- The result of the C3 witness row creation. -/
def c3wR : Table × List Table :=
  (Table.init { ctr_dict := [(("rec/a/"), ("u:ct"))] } 1 ("u") (some ("t")) [c3P]
    ("rec/a")).toOption.getD (c3P, [])

/-- C3 (witness): with a non-colliding counter-id `ct`, the created row's
identifiers are exactly the parent's plus the one counter pair. -/
theorem c3_witness :
    c3wR.1.identifiers = c3P.identifiers ++ [(("ct"), PyVal.int 1)] :=
  c3_identifier_inheritance { ctr_dict := [(("rec/a/"), ("u:ct"))] } 1 ("u") ("t") ("rec/a")
    [] [] c3P ("u:ct") ("u") ("ct") (by simp) (by simp) (by rfl) (by decide) (by rfl) (by rfl)
    (by decide) c3wR.1 c3wR.2 (by rfl)

/-! ### Claim C10 -/

/-- C10: when no open table carries the given name, `add_col` and
`add_identifier` return with the table list unchanged (the value is
silently dropped), and `close_table` appends no statement and leaves the
list unchanged; writing to a closed or absent table is not a detectable
error. -/
theorem c10_absent_table_silent (tl : List Table) (nm c1 c2 : String) (v1 v2 : PyVal)
    (stmts : List Stmt) (h : ∀ u ∈ tl, u.name ≠ nm) :
    TableList.add_col tl nm c1 v1 = tl ∧
    TableList.add_identifier tl nm c2 v2 = tl ∧
    TableList.close_table tl nm stmts = (tl, stmts) :=
  ⟨add_col_absent nm c1 v1 tl h, add_identifier_absent nm c2 v2 tl h,
    close_table_absent nm stmts tl h⟩

/-- A single open table named `a`, used by the C10 witness. -/
def c10T : Table :=
  { rid := 0, parentRid := Option.none, name := ("a"), parent_name := Option.none,
    columns := [], identifiers := [], counters := [] }

/-- C10 (witness): writing to the absent table name `b` changes nothing
and closing it emits nothing. -/
theorem c10_witness :
    TableList.add_col [c10T] ("b") ("c") (PyVal.str ("v")) = [c10T] ∧
    TableList.add_identifier [c10T] ("b") ("c") (PyVal.str ("v")) = [c10T] ∧
    TableList.close_table [c10T] ("b") [] = ([c10T], []) :=
  c10_absent_table_silent [c10T] ("b") ("c") ("c") (PyVal.str ("v")) (PyVal.str ("v")) []
    (by intro u hu; simp at hu; subst hu; decide)

/-! ### Claim C6 -/

/-- C6 (amended): when the identifier tag equals the record tag, the
primary identifier is the record element's own text; otherwise it is
located by a single `find` of the identifier sub-path beneath the record
element.  When that sub-path is absent, the record fails with an uncaught
AttributeError (`id_node.text` on `None`): the record's processing aborts
before any statement is emitted, and — because nothing catches the
exception — the abort propagates to the whole run instead of the record
being reported and skipped. -/
theorem c6_identifier_resolution (p : Parser) (elem : XNode) (fn : PyVal) (ct : String)
    (hct : alistGet? p.table_dict (p.rec_tag ++ ("/")) = some ct) :
    (p.id_tag = p.rec_tag →
      getIdValue p elem = .ok (value_quote ++ pyText elem.text ++ value_quote)) ∧
    (p.id_tag ≠ p.rec_tag → ∀ n, etFind elem p.id_tag = some n →
      getIdValue p elem = .ok (value_quote ++ pyText n.text ++ value_quote)) ∧
    (p.id_tag ≠ p.rec_tag → etFind elem p.id_tag = Option.none →
      parseRecord p fn elem = .error .attributeError) := by
  refine ⟨?_, ?_, ?_⟩
  · intro heq
    simp only [getIdValue]
    rw [if_neg (fun hh => hh heq)]
  · intro hne n hfind
    simp only [getIdValue]
    rw [if_pos hne, hfind]
  · intro hne hfind
    have hid : getIdValue p elem = .error .attributeError := by
      simp only [getIdValue]
      rw [if_pos hne, hfind]
    simp only [parseRecord, hct, TableList.add_table, Table.init, List.nil_append, hid]

/-- The configuration of the C6 examples: record tag `rec`, identifier in
the child element `idt`. -/
def c6P : Parser := { table_dict := [(("rec/"), ("t"))], rec_tag := ("rec"), id_tag := ("idt") }

/-- A record without its identifier element. -/
def c6bad : XNode := XNode.mk ("rec") [] (some ("no id here")) XForest.nil

/-- A record carrying its identifier element. -/
def c6good : XNode :=
  XNode.mk ("rec") [] Option.none
    (XForest.cons (XNode.mk ("idt") [] (some ("7")) XForest.nil) XForest.nil)

/-- C6 (counterexample): the claim's error handling ("report and skip the
record/file") is false.  A run over a file whose record lacks the
identifier sub-path followed by a processable file aborts entirely with
the uncaught AttributeError: no completed output is produced and the
second file is never processed, although it is processable on its own. -/
theorem c6_counterexample :
    parse c6P [(("bad.xml"), c6bad), (("good.xml"), c6good)] = .error .attributeError ∧
    (parse c6P [(("good.xml"), c6good)]).isOk = true := by
  exact ⟨rfl, rfl⟩

/-- C6 (witness): the amended theorem applied to the concrete record with
a missing identifier: processing fails with the attribute error and emits
nothing. -/
theorem c6_witness : parseRecord c6P (PyVal.int (-1)) c6bad = .error .attributeError :=
  (c6_identifier_resolution c6P c6bad (PyVal.int (-1)) ("t") (by rfl)).2.2
    (by decide) (by rfl)

/-! ### Claim C2 -/

/-- C2 (amended): the emitted output of a processing run is one combined
text file per SOURCE DOCUMENT (not one per referenced table): its name is
the source file's name with the extension replaced by `.sql`, its contents
are a transaction-begin marker, the statements of all records (all tables
mixed into the same stream), and a commit marker; a run over n files
yields exactly n outputs. -/
theorem c2_per_source_file_output (p : Parser) :
    (∀ (fname : String) (root : XNode) (out : String × String),
      parse_file p fname root = .ok out →
      out.1 = withSuffixSql fname ∧
      ∃ body, out.2 = ("BEGIN;\n") ++ body ++ ("COMMIT;\n")) ∧
    (∀ (files : List (String × XNode)) (outs : List (String × String)),
      parse p files = .ok outs → outs.length = files.length) := by
  constructor
  · intro fname root out h
    simp only [parse_file] at h
    split at h
    · exact absurd h (by simp)
    · rename_i body hb
      simp only [Except.ok.injEq] at h
      subst h
      exact ⟨rfl, body, rfl⟩
  · intro files
    induction files with
    | nil =>
      intro outs h
      simp only [parse, Except.ok.injEq] at h
      subst h
      rfl
    | cons f rest ih =>
      intro outs h
      obtain ⟨fn, root⟩ := f
      simp only [parse] at h
      split at h
      · exact absurd h (by simp)
      · split at h
        · exact absurd h (by simp)
        · rename_i outs1 hrest
          simp only [Except.ok.injEq] at h
          subst h
          simp [ih outs1 hrest]

/-- The two-table configuration of the C2 examples. -/
def c2P : Parser :=
  { table_dict := [(("rec/"), ("a")), (("rec/b/"), ("btab"))],
    ctr_dict := [(("rec/b/"), ("btab:ct"))],
    rec_tag := ("rec"), id_tag := ("rec") }

/-- A record whose walk emits statements for the two tables `a` and
`btab`. -/
def c2N : XNode :=
  XNode.mk ("rec") [] (some ("X"))
    (XForest.cons (XNode.mk ("b") [] Option.none XForest.nil) XForest.nil)

/-- C2 (counterexample): the claim as stated is false.  Processing
`doc.xml` produces exactly ONE output file, named `doc.sql` after the
source document — not after any table — and the statement stream written
into it contains the statements of TWO distinct tables (`btab` and `a`). -/
theorem c2_counterexample :
    (parse_file c2P ("doc.xml") c2N).map Prod.fst = .ok ("doc.sql") ∧
    (parseRecord c2P (PyVal.int (-1)) c2N).map (fun L => L.map Stmt.table) =
      .ok [("btab"), ("a")] ∧
    (("doc.sql") : String) ≠ ("a") ∧ (("doc.sql") : String) ≠ ("btab") := by
  exact ⟨rfl, rfl, by decide, by decide⟩

/-- The concrete output of the C2 witness run. -/
def c2out : String × String :=
  (parse_file c2P ("doc.xml") c2N).toOption.getD ((""), (""))

/-- C2 (witness): the amended theorem applied to the concrete run: the one
output is named `doc.sql` and wrapped in BEGIN/COMMIT markers. -/
theorem c2_witness :
    c2out.1 = withSuffixSql ("doc.xml") ∧
    ∃ body, c2out.2 = ("BEGIN;\n") ++ body ++ ("COMMIT;\n") :=
  (c2_per_source_file_output c2P).1 ("doc.xml") c2N c2out (by rfl)

/-! ### Claim C7 -/

/-- Configuration with a file-number mapping at the nested path `rec/a`
(the key `read_config` would store for it is `rec/a/file_number`). -/
def c7P : Parser :=
  { table_dict := [(("rec/"), ("t"))],
    file_number_dict := [(("rec/a/file_number"), ("t:fn"))],
    rec_tag := ("rec"), id_tag := ("rec") }

/-- A record with one nested element `a` (where the claim says the
file-number column must be written). -/
def c7N : XNode :=
  XNode.mk ("rec") [] (some ("X"))
    (XForest.cons (XNode.mk ("a") [] Option.none XForest.nil) XForest.nil)

/-- Configuration with a file-number mapping at the record root. -/
def c7Proot : Parser :=
  { table_dict := [(("rec/"), ("t"))],
    file_number_dict := [(("rec/file_number"), ("t:fn"))],
    rec_tag := ("rec"), id_tag := ("rec") }

/-- A record with no children. -/
def c7Nflat : XNode := XNode.mk ("rec") [] (some ("X")) XForest.nil

/-- A record whose nested element is literally tagged `file_number`, the
only way the nested lookup key can match. -/
def c7Nfn : XNode :=
  XNode.mk ("rec") [] (some ("X"))
    (XForest.cons (XNode.mk ("file_number") [] Option.none XForest.nil) XForest.nil)

/-- C7 (code bug): the claim holds at the record root but not at deeper
nodes, and the source's own comments flag the broken branch.  (i) With the
mapping at nested path `rec/a`, the emitted INSERT for the record carries
NO file-number column: `parse_node` looks up `newpath` itself instead of
`newpath + "/file_number"`, so the mapping never fires.  (ii) The same
mapping style at the record root DOES produce the column (value 57 here).
(iii) If the nested lookup ever does match (element tagged `file_number`),
the branch evaluates the name `file_number`, which is not in scope in
`parse_node`, raising NameError.  (iv) The run's file number is looked up
by source file name with default -1. -/
theorem c7_file_number_bug :
    ((parseRecord c7P (PyVal.int 57) c7N).map (fun L => L.map Stmt.sql) =
      .ok [("INSERT INTO \"t\" (\"id\") VALUES (") ++ value_quote ++ ("X") ++ value_quote ++
        (");")]) ∧
    ((parseRecord c7Proot (PyVal.int 57) c7Nflat).map (fun L => L.map Stmt.sql) =
      .ok [("INSERT INTO \"t\" (\"id\",\"fn\") VALUES (") ++ value_quote ++ ("X") ++
        value_quote ++ (",") ++ value_quote ++ ("57") ++ value_quote ++ (");")]) ∧
    (parseRecord c7Proot (PyVal.int 57) c7Nfn = .error .nameError) ∧
    (fileNumberOf ({} : Parser) ("doc.xml") = PyVal.int (-1)) := by
  exact ⟨rfl, rfl, rfl, rfl⟩

/-! ### Claim C9 -/

/-- A configuration document with a malformed mapping value: the attribute
`x` carries `foo`, which lacks the `table:column` shape. -/
def c9Cfg : XNode := XNode.mk ("rec") [(("x"), ("foo"))] Option.none XForest.nil

/-- C9 (counterexample): the claim is false — configuration compilation
never fails.  `update_lookup_tables` is a total function with no error
channel (no ConfigError exists anywhere in the source): the malformed
value `foo` is accepted and stored verbatim in `attrib_dict`.  The failure
surfaces only later, during traversal, when a record attribute matches the
mapping and the `table_name, col_name` unpacking of the colon-split raises
ValueError. -/
theorem c9_counterexample :
    update_lookup_tables ("") c9Cfg ("") {} = { attrib_dict := [(("rec/x"), ("foo"))] } ∧
    parseRecord
        { table_dict := [(("rec/"), ("t"))], attrib_dict := [(("rec/x"), ("foo"))],
          rec_tag := ("rec"), id_tag := ("rec") }
        (PyVal.int (-1))
        (XNode.mk ("rec") [(("x"), ("anything"))] (some ("X")) XForest.nil) =
      .error .valueError := by
  exact ⟨rfl, rfl⟩

/-- C9 (amended): configuration compilation never fails; a mapping value
is truncated to its first two colon-separated components and stored
without any shape validation (shown here for an arbitrary non-special
attribute value on a one-node configuration).  A stored value that lacks a
colon entirely makes the attribute-processing step of the traversal raise
ValueError when a data attribute first matches it. -/
theorem c9_no_load_validation :
    (∀ (ns path tag an v : String) (d : Parser),
      an ≠ ("table") → an ≠ ("ctr_id") → an ≠ ("file_number") →
      (pySplit v (":")).length ≠ 3 →
      update_lookup_tables ns (XNode.mk tag [(an, v)] Option.none XForest.nil) path d =
        { d with attrib_dict :=
            alistSet d.attrib_dict (ns ++ (path ++ tag ++ ("/")) ++ an) (colonTrunc2 v) }) ∧
    (∀ (p : Parser) (bp an av v : String) (rest : List (String × String)) (tbl : String)
      (seen : List String) (st : WalkState),
      alistGet? p.attrib_dict (bp ++ ("/") ++ an) = some v →
      (pySplit v (":")).length = 1 →
      attribFold p bp ((an, av) :: rest) tbl seen st = .error .valueError) := by
  constructor
  · intro ns path tag an v d hn1 hn2 hn3 hlen
    simp only [update_lookup_tables, update_lookup_children]
    simp only [List.foldl_cons, List.foldl_nil, configAttribStep]
    rw [if_neg hn1, if_neg hn2, if_neg hn3, if_neg hlen]
  · intro p bp an av v rest tbl seen st hlook hlen
    obtain ⟨x, hx⟩ := List.length_eq_one.mp hlen
    simp only [attribFold, hlook, hx, List.take]

/-- C9 (witness): the amended theorem applied concretely: the one-node
configuration with the colon-free mapping value `foo` compiles to a
dictionary update (no failure), and an attribute matching `foo` during
traversal raises ValueError. -/
theorem c9_witness :
    (update_lookup_tables ("") c9Cfg ("") {} =
      { attrib_dict :=
          alistSet ({} : Parser).attrib_dict (("") ++ (("") ++ ("rec") ++ ("/")) ++ ("x"))
            (colonTrunc2 ("foo")) }) ∧
    (attribFold { attrib_dict := [(("rec/x"), ("foo"))] } ("rec")
        [(("x"), ("y"))] ("t") [] { tlist := [], stmts := [], nextRid := 0 } =
      .error .valueError) := by
  constructor
  · exact c9_no_load_validation.1 ("") ("") ("rec") ("x") ("foo") {}
      (by decide) (by decide) (by decide) (by decide)
  · exact c9_no_load_validation.2 { attrib_dict := [(("rec/x"), ("foo"))] } ("rec") ("x") ("y")
      ("foo") [] ("t") [] { tlist := [], stmts := [], nextRid := 0 } (by rfl) (by rfl)

end NewParser
